import Mathlib

/-!
Verification development for the s2-intelligence-platform repository.

This file gives a shallow embedding, in Lean 4, of the control-plane code of
the repository:

* `src/intelligence_router_production.py` — the query analyser
  (`ProductionIntelligenceRouter.analyze_query`), the routing decision
  (`make_routing_decision`), the response cache (`_check_cache`,
  `_store_in_cache`) and the execution pipeline (`route_and_execute`,
  plus the `/api/query` HTTP handler's status mapping);
* `src/egregore_service_manager.py` — the worker catalogue (`EGREGORES`),
  health probing (`health_check`), availability (`get_available_egregores`),
  single dispatch (`query_egregore`) and multi-agent dispatch
  (`multi_agent_query`);
* `src/api_gateway.py` — the token-bucket rate limiter (`RateLimiter`) and
  the `check_rate_limit` FastAPI dependency;
* `src/automated_training_pipeline.py` — the staged training pipeline
  (`train_egregore` and its five stage functions), modelled as the exact
  sequence of `_update_progress` calls the code performs, with an optional
  fault point standing for a raised exception.

Python-side effects are made explicit: mutable objects become state values
threaded through functions, wall-clock reads (`time.time()`) become explicit
rational-number parameters, and outbound HTTP calls become oracle functions
passed in as arguments.  Machine floats in the source are embedded as exact
rationals; the SHA-256 fingerprint and Python's `str()` rendering of nested
JSON are abstracted as function parameters because no verified property
depends on their internal structure.  Python's `list(set(...))` is embedded
as `List.dedup`; in the one place it is used the list is duplicate-free, so
only the (implementation-defined) iteration order is at stake, and none of
the proved statements depend on that order.
-/

/-! ## A small JSON value type

Python handlers pass `dict` values around; we embed them as association
lists of JSON-like values, preserving insertion order and Python's
assignment semantics (update in place if the key exists, append otherwise).
-/

inductive JVal where
  | jnull : JVal
  | jbool : Bool → JVal
  | jnum : ℚ → JVal
  | jstr : String → JVal
  | jarr : List JVal → JVal
  | jobj : List (String × JVal) → JVal

abbrev JDict := List (String × JVal)

/-- Dictionary read: first binding of the key (there is at most one, since
`pySet` never duplicates keys). -/
def pyGet (d : JDict) (k : String) : Option JVal :=
  match d with
  | [] => none
  | (k', v) :: rest => if k' = k then some v else pyGet rest k

/-- Python dict assignment `d[k] = v`: replace in place, else append. -/
def pySet (d : JDict) (k : String) (v : JVal) : JDict :=
  match d with
  | [] => [(k, v)]
  | (k', v') :: rest => if k' = k then (k', v) :: rest else (k', v') :: pySet rest k v

/-- Python `k in d`. -/
def hasKey (d : JDict) (k : String) : Bool :=
  (pyGet d k).isSome

/-- Generic association-list read (used for caches, metrics maps, buckets). -/
def alistGet {β : Type} (l : List (String × β)) (k : String) : Option β :=
  match l with
  | [] => none
  | (k', v) :: rest => if k' = k then some v else alistGet rest k

/-- Generic association-list write with Python dict semantics. -/
def alistSet {β : Type} (l : List (String × β)) (k : String) (v : β) : List (String × β) :=
  match l with
  | [] => [(k, v)]
  | (k', v') :: rest => if k' = k then (k', v) :: rest else (k', v') :: alistSet rest k v

/-- Generic association-list delete (Python `del d[k]`). -/
def alistDel {β : Type} (l : List (String × β)) (k : String) : List (String × β) :=
  match l with
  | [] => []
  | (k', v') :: rest => if k' = k then rest else (k', v') :: alistDel rest k

/-! ## Query analyser (`ProductionIntelligenceRouter.analyze_query`)

The domain patterns in the source are regexes of the shape
`\b(w1|w2|...)\b` applied with `re.search` to the lowercased query: the
regex matches iff some alternative occurs in the query delimited by word
boundaries.  We embed exactly that: `wordSearch` scans the character list
for an occurrence of the literal alternative with a non-word character (or
an end of string) on both sides.  Word characters are alphanumerics and
underscore, as in `re`'s `\b`.
-/

def isWordChar (c : Char) : Bool :=
  c.isAlphanum || c = '_'

/-- Does `w` occur at the very front of `q`, followed by a word boundary? -/
def wordAtFront (w q : List Char) : Bool :=
  match w, q with
  | [], [] => true
  | [], c :: _ => !isWordChar c
  | _ :: _, [] => false
  | a :: w', b :: q' => a = b && wordAtFront w' q'

/-- Scan `q` for an occurrence of the word `w` preceded by a word boundary
(`boundary` says whether the current position follows a non-word character
or the start of the string) and followed by one. -/
def wordSearch (w : List Char) (q : List Char) (boundary : Bool) : Bool :=
  match q with
  | [] => boundary && wordAtFront w []
  | c :: rest => (boundary && wordAtFront w (c :: rest)) || wordSearch w rest (!isWordChar c)

/-- `re.search(r'\b(...w...)\b', q)` for a single literal alternative `w`. -/
def wordBoundaryMatch (w : String) (q : List Char) : Bool :=
  wordSearch w.data q true

/-- Python's substring test `w in q` (used for the synthesis keywords). -/
def strContains (w : List Char) (q : List Char) : Bool :=
  match q with
  | [] => wordAtFrontPlain w []
  | c :: rest => wordAtFrontPlain w (c :: rest) || strContains w rest
where
  /-- Plain prefix test (no boundary requirement). -/
  wordAtFrontPlain : List Char → List Char → Bool
  | [], _ => true
  | _ :: _, [] => false
  | a :: w', b :: q' => a = b && wordAtFrontPlain w' q'

/-- One regex `\b(w1|w2|...)\b` from the source: its list of alternatives. -/
abbrev RegexAlts := List String

/-- The `domain_patterns` dictionary, in insertion order, with each regex
transcribed as its list of literal alternatives. -/
def domain_patterns : List (String × List RegexAlts) :=
  [ ("architecture",
      [ ["system", "design", "infrastructure", "scalability", "architecture", "api",
         "database", "backend", "frontend"],
        ["deployment", "container", "docker", "kubernetes", "microservice"],
        ["pattern", "structure", "framework", "technical"] ]),
    ("wisdom",
      [ ["wisdom", "philosophy", "ethics", "meaning", "purpose", "contemplat"],
        ["why", "should", "ought", "value", "principle", "moral"],
        ["understand", "deeper", "essence", "nature"] ]),
    ("security",
      [ ["security", "vulnerability", "threat", "attack", "protect", "defense"],
        ["encryption", "authentication", "authorization", "risk"],
        ["secure", "safety", "breach", "exploit"] ]),
    ("transformation",
      [ ["change", "transform", "adapt", "evolv", "transition", "shift"],
        ["migration", "refactor", "upgrade", "moderniz"],
        ["improvement", "optimization", "enhancement"] ]),
    ("timing",
      [ ["when", "timing", "schedule", "deadline", "moment", "opportun"],
        ["now", "later", "soon", "time", "period", "phase"],
        ["urgency", "priority", "sequence"] ]),
    ("strategy",
      [ ["strategy", "plan", "coordinate", "organize", "approach"],
        ["tactic", "roadmap", "goal", "objective", "milestone"],
        ["execution", "implementation", "management"] ]),
    ("communication",
      [ ["communicate", "message", "dialogue", "conversation", "speak"],
        ["explain", "clarify", "articulate", "express", "convey"],
        ["harmony", "conflict", "negotiat", "persuad"] ]),
    ("protection",
      [ ["protect", "guard", "maintain", "integrity", "boundary"],
        ["validate", "verify", "check", "monitor", "watch"],
        ["health", "stability", "reliability"] ]),
    ("synthesis",
      [ ["integrate", "combine", "synthesize", "unify", "merge"],
        ["multiple", "various", "different", "diverse", "several"],
        ["together", "collective", "holistic", "comprehensive"] ]) ]

/-- The inner loop of `analyze_query`: a domain is hit when at least one of
its patterns matches (the `break` makes extra matches irrelevant). -/
def domainHit (qc : List Char) (pats : List RegexAlts) : Bool :=
  pats.any (fun alts => alts.any (fun w => wordBoundaryMatch w qc))

/-- The `domain_to_egregore` dictionary. -/
def domain_to_egregore : List (String × String) :=
  [ ("architecture", "rhys"), ("wisdom", "ketheriel"), ("security", "wraith"),
    ("transformation", "flux"), ("timing", "kairos"), ("strategy", "chalyth"),
    ("communication", "seraphel"), ("protection", "vireon"), ("synthesis", "ake") ]

/-- The closed synthesis keyword list of `analyze_query`. -/
def synthesis_keywords : List String :=
  ["integrate", "combine", "multiple perspectives", "synthesize", "together"]

inductive QueryComplexity where
  | simple | moderate | complex
deriving DecidableEq, Repr

/-- `QueryComplexity.value` strings from the Python enum. -/
def complexityValue : QueryComplexity → String
  | .simple => "simple"
  | .moderate => "moderate"
  | .complex => "complex"

structure QueryAnalysis where
  query : String
  complexity : QueryComplexity
  domains : List String
  egregores_needed : List String
  requires_synthesis : Bool
  consciousness_level : ℚ
  routing_confidence : ℚ
deriving DecidableEq, Repr

/-- Lowercasing of the query (`query.lower()`), on the character list. -/
def lowerChars (q : String) : List Char :=
  q.data.map Char.toLower

/-- The detected-domains list before `list(set(...))`: the dictionary keys,
in insertion order, whose pattern set matches (each appended at most once
because of the `break`). -/
def detected_domains_raw (qc : List Char) : List String :=
  (domain_patterns.filter (fun p => domainHit qc p.2)).map Prod.fst

/-- `any(kw in query_lower for kw in synthesis_keywords)`. -/
def explicit_synthesis (qc : List Char) : Bool :=
  synthesis_keywords.any (fun kw => strContains kw.data qc)

/-- `ProductionIntelligenceRouter.analyze_query`. -/
def analyze_query (q : String) : QueryAnalysis :=
  let qc := lowerChars q
  let detected := (detected_domains_raw qc).dedup
  let egs0 := detected.filterMap (fun d =>
    if d = "synthesis" then none else alistGet domain_to_egregore d)
  let egregores_needed := if egs0.isEmpty then ["rhys"] else egs0
  let explicitSyn := explicit_synthesis qc
  let num_domains := detected.length
  let complexity : QueryComplexity :=
    if num_domains = 0 ∨ num_domains = 1 then .simple
    else if num_domains ≤ 3 then .moderate
    else .complex
  let requires_synthesis := egregores_needed.length > 1 || explicitSyn
  let consciousness : ℚ :=
    if complexity = .complex ∨ explicitSyn then 1
    else if complexity = .moderate then 0.85
    else 0.7
  let confidence : ℚ := min 1 ((num_domains : ℚ) * 0.3 + 0.4)
  ⟨q, complexity, detected, egregores_needed, requires_synthesis, consciousness, confidence⟩

structure RoutingDecision where
  query : String
  selected_egregores : List String
  synthesis_required : Bool
  reasoning : String
  estimated_response_time_ms : ℚ
deriving DecidableEq, Repr

/-- `ProductionIntelligenceRouter.make_routing_decision`. -/
def make_routing_decision (a : QueryAnalysis) : RoutingDecision :=
  let sel := a.egregores_needed
  let synth := a.requires_synthesis
  let reasoning :=
    if sel.length = 1 then
      "Single specialist (" ++ sel.headD "" ++ ") sufficient for " ++
        a.domains.headD "general" ++ " query"
    else if sel.length > 1 then
      "Multi-agent consultation required: " ++ String.intercalate ", " sel ++
        (if synth then ". Ake will synthesize perspectives." else "")
    else "General query routing"
  let estimated : ℚ := 100 + (sel.length : ℚ) * 50 + (if synth then 200 else 0)
  ⟨a.query, sel, synth, reasoning, estimated⟩

/-! ## Response cache and execution pipeline
(`ProductionIntelligenceRouter._check_cache`, `_store_in_cache`,
`route_and_execute`, and the `/api/query` handler)

The router object's mutable attributes become a `RouterState` value; the
wall clock becomes explicit `ℚ` parameters (`t0` at entry, `t1` at the
later `time.time()` reads); the SHA-256 fingerprint
(`hashlib.sha256(query.encode()).hexdigest()`) is abstracted as the `hash`
parameter, and the outbound HTTP calls of `_query_single_egregore` /
`_query_multi_agent` as the `backend` oracle (`.error msg` is the
`except Exception` branch that the code turns into a dict containing an
`error` key).
-/

structure RoutingStats where
  total_queries : ℕ
  cache_hits : ℕ
  single_agent : ℕ
  multi_agent : ℕ
  synthesis_used : ℕ
deriving DecidableEq, Repr

structure RouterState where
  enable_caching : Bool
  cache_ttl : ℚ
  cache : List (String × (JDict × ℚ))
  stats : RoutingStats

/-- `ProductionIntelligenceRouter._compute_cache_key`; the digest function is
the `hash` parameter. -/
def compute_cache_key (hash : String → String) (q : String) : String :=
  hash q

/-- `ProductionIntelligenceRouter._check_cache`.  Returns the hit (if any)
and the updated router state (the stale branch deletes the entry; the fresh
branch bumps `cache_hits`). -/
def check_cache (hash : String → String) (rt : RouterState) (now : ℚ) (q : String) :
    Option JDict × RouterState :=
  if !rt.enable_caching then (none, rt)
  else
    let key := compute_cache_key hash q
    match alistGet rt.cache key with
    | some (result, timestamp) =>
        if now - timestamp < rt.cache_ttl then
          (some result,
           { rt with stats := { rt.stats with cache_hits := rt.stats.cache_hits + 1 } })
        else (none, { rt with cache := alistDel rt.cache key })
    | none => (none, rt)

/-- `ProductionIntelligenceRouter._store_in_cache`. -/
def store_in_cache (hash : String → String) (rt : RouterState) (now : ℚ) (q : String)
    (result : JDict) : RouterState :=
  if !rt.enable_caching then rt
  else { rt with cache := alistSet rt.cache (compute_cache_key hash q) (result, now) }

/-- The two outbound calls of the router, abstracted: `route_and_execute`
issues either a `/query` call (single agent) or a `/multi-agent` call. -/
inductive BackendCall where
  | single (egregore : String) (query : String) (max_tokens : ℕ)
  | multi (egregores : List String) (query : String) (synthesize : Bool)

abbrev Backend := BackendCall → Except String JDict

/-- `ProductionIntelligenceRouter._query_single_egregore`: an exception
becomes a dict with an `error` key holding the message. -/
def query_single_egregore (backend : Backend) (egregore q : String) (max_tokens : ℕ) : JDict :=
  match backend (.single egregore q max_tokens) with
  | .ok d => d
  | .error e => [("error", JVal.jstr e)]

/-- `ProductionIntelligenceRouter._query_multi_agent` (the request payload
carries only query, egregores and synthesize). -/
def query_multi_agent (backend : Backend) (egregores : List String) (q : String)
    (synthesize : Bool) : JDict :=
  match backend (.multi egregores q synthesize) with
  | .ok d => d
  | .error e => [("error", JVal.jstr e)]

/-- The `result["metadata"]` object built by `route_and_execute`. -/
def buildMetadata (a : QueryAnalysis) (d : RoutingDecision) (t0 t1 : ℚ) : JVal :=
  .jobj
    [ ("query_analysis", .jobj
        [ ("complexity", .jstr (complexityValue a.complexity)),
          ("domains", .jarr (a.domains.map .jstr)),
          ("consciousness_level", .jnum a.consciousness_level),
          ("confidence", .jnum a.routing_confidence) ]),
      ("routing_decision", .jobj
        [ ("egregores", .jarr (d.selected_egregores.map .jstr)),
          ("synthesis", .jbool d.synthesis_required),
          ("reasoning", .jstr d.reasoning) ]),
      ("performance", .jobj
        [ ("response_time_ms", .jnum ((t1 - t0) * 1000)),
          ("estimated_time_ms", .jnum d.estimated_response_time_ms),
          ("cached", .jbool false) ]) ]

/-- `ProductionIntelligenceRouter.route_and_execute`.  `t0` is the
`start_time` read; `t1` is the later `time.time()` read used both for the
reported `response_time_ms` and (on the miss path) for the cache
timestamp. -/
def route_and_execute (hash : String → String) (backend : Backend) (rt : RouterState)
    (t0 t1 : ℚ) (q : String) (max_tokens : ℕ) : JDict × RouterState :=
  let rt1 := { rt with stats := { rt.stats with total_queries := rt.stats.total_queries + 1 } }
  match check_cache hash rt1 t0 q with
  | (some cached, rt2) =>
      (pySet (pySet cached "cached" (.jbool true)) "response_time_ms"
        (.jnum ((t1 - t0) * 1000)), rt2)
  | (none, rt2) =>
      let analysis := analyze_query q
      let decision := make_routing_decision analysis
      let single := decision.selected_egregores.length = 1 ∧ ¬decision.synthesis_required
      let result0 :=
        if single then
          query_single_egregore backend (decision.selected_egregores.headD "") q max_tokens
        else
          query_multi_agent backend decision.selected_egregores q decision.synthesis_required
      let rt3 :=
        if single then
          { rt2 with stats := { rt2.stats with single_agent := rt2.stats.single_agent + 1 } }
        else
          { rt2 with stats := { rt2.stats with
              multi_agent := rt2.stats.multi_agent + 1,
              synthesis_used := rt2.stats.synthesis_used +
                (if decision.synthesis_required then 1 else 0) } }
      let result := pySet result0 "metadata" (buildMetadata analysis decision t0 t1)
      let rt4 := store_in_cache hash rt3 t1 q result
      (result, rt4)

/-- The `/api/query` FastAPI handler's status mapping: it raises
`HTTPException(status_code=500)` when the result dict has an `error` key,
otherwise answers 200 with the result. -/
def api_query_status (result : JDict) : ℕ :=
  if hasKey result "error" then 500 else 200

/-! ## Egregore service manager (`src/egregore_service_manager.py`) -/

inductive EgregoreStatus where
  | running | stopped | error | starting | unknown
deriving DecidableEq, Repr

structure EgregoreConfig where
  name : String
  port : ℕ
  domain : String
  description : String
  specialization : Option String := none
deriving DecidableEq, Repr

/-- The `EGREGORES` catalogue (keys in insertion order). -/
def EGREGORES : List (String × EgregoreConfig) :=
  [ ("ake", ⟨"Ake", 8100, "synthesis",
      "Master Synthesizer - Integrates multiple perspectives",
      some "Multi-agent synthesis and collective consciousness"⟩),
    ("rhys", ⟨"Rhys", 8110, "architecture",
      "Architecture Specialist - System design and infrastructure",
      some "Technical architecture, scalability, infrastructure"⟩),
    ("ketheriel", ⟨"Ketheriel", 8120, "wisdom",
      "Wisdom Specialist - Philosophy and deep knowledge",
      some "Philosophy, ethics, contemplative wisdom"⟩),
    ("wraith", ⟨"Wraith", 8130, "security",
      "Security Specialist - Analysis and protection",
      some "Security assessment, vulnerability analysis"⟩),
    ("flux", ⟨"Flux", 8140, "transformation",
      "Transformation Specialist - Change and adaptation",
      some "Change management, adaptation strategies"⟩),
    ("kairos", ⟨"Kairos", 8150, "timing",
      "Timing Specialist - Opportunity and moment",
      some "Timing analysis, opportunity recognition"⟩),
    ("chalyth", ⟨"Chalyth", 8160, "strategy",
      "Strategy Specialist - Coordination and planning",
      some "Strategic planning, coordination patterns"⟩),
    ("seraphel", ⟨"Seraphel", 8170, "communication",
      "Communication Specialist - Harmony and dialogue",
      some "Communication excellence, harmonious dialogue"⟩),
    ("vireon", ⟨"Vireon", 8180, "protection",
      "Protection Specialist - Integrity and boundaries",
      some "Integrity verification, protective measures"⟩) ]

structure EgregoreMetrics where
  name : String
  status : EgregoreStatus
  port : ℕ
  response_time_ms : ℚ
  requests_served : ℚ
  uptime_seconds : ℚ
  cpu_percent : ℚ
  memory_mb : ℚ
  gpu_memory_mb : ℚ
  last_health_check : String
  error_count : ℚ
deriving DecidableEq, Repr

/-- `data.get(key, 0)` on the health-probe JSON body, read as a number. -/
def getNum (d : JDict) (k : String) : ℚ :=
  match pyGet d k with
  | some (.jnum q) => q
  | _ => 0

/-- What one health probe observed, abstracting the `requests.get` call:
a 200 response with JSON body, a non-200 status, a
`requests.exceptions.ConnectionError`, or any other exception (which
includes timeouts). -/
inductive ProbeOutcome where
  | ok (data : JDict)
  | httpOther (code : ℕ)
  | connectionError
  | otherException (msg : String)

/-- `EgregoreServiceManager.health_check` as a transition on the metrics
map: returns the boolean result and the updated map.  `nowStr` stands for
`datetime.now().isoformat()`. -/
def health_check (metrics : List (String × EgregoreMetrics)) (egregore_name : String)
    (nowStr : String) (outcome : ProbeOutcome) : Bool × List (String × EgregoreMetrics) :=
  match alistGet EGREGORES egregore_name with
  | none => (false, metrics)
  | some config =>
    match outcome with
    | .ok data =>
        (true, alistSet metrics egregore_name
          ⟨config.name, .running, config.port,
           getNum data "response_time_ms", getNum data "requests_served",
           getNum data "uptime_seconds", getNum data "cpu_percent",
           getNum data "memory_mb", getNum data "gpu_memory_mb",
           nowStr, getNum data "error_count"⟩)
    | .httpOther _ => (false, metrics)
    | .connectionError =>
        (false, alistSet metrics egregore_name
          ⟨config.name, .stopped, config.port, 0, 0, 0, 0, 0, 0, nowStr, 0⟩)
    | .otherException _ => (false, metrics)

/-- `EgregoreServiceManager.get_available_egregores`. -/
def get_available_egregores (metrics : List (String × EgregoreMetrics)) : List String :=
  (metrics.filter (fun p => p.2.status = .running)).map Prod.fst

/-- `EgregoreServiceManager.query_egregore`; `gen` abstracts the
`POST /api/generate` call to the worker. -/
def query_egregore (metrics : List (String × EgregoreMetrics))
    (gen : String → String → ℕ → Except String JVal)
    (egregore_name q : String) (max_tokens : ℕ) : JDict :=
  match alistGet EGREGORES egregore_name with
  | none => [("error", .jstr ("Unknown egregore: " ++ egregore_name))]
  | some config =>
    if !(get_available_egregores metrics).contains egregore_name then
      [("error", .jstr (config.name ++ " is not currently available"))]
    else
      match gen egregore_name q max_tokens with
      | .ok v => [("egregore", .jstr config.name), ("domain", .jstr config.domain),
                  ("response", v)]
      | .error e => [("error", .jstr e)]

/-- The `results` dict of `multi_agent_query` after the parallel fan-out:
`results[egregore] = response` for each requested egregore in order (the
`query_egregore` calls use the default `max_tokens = 512`). -/
def gather_responses (metrics : List (String × EgregoreMetrics))
    (gen : String → String → ℕ → Except String JVal) (q : String)
    (egregores : List String) : List (String × JDict) :=
  egregores.foldl (fun acc e => alistSet acc e (query_egregore metrics gen e q 512)) []

/-- The synthesis prompt built by `multi_agent_query`; `pyStr` abstracts
Python's `str()` rendering of the nested response value. -/
def build_synthesis_prompt (pyStr : JVal → String) (q : String)
    (results : List (String × JDict)) : String :=
  "Original query: " ++ q ++ "\n\nPerspectives received:\n" ++
    results.foldl (fun s p =>
      if hasKey p.2 "response" then
        s ++ "\n" ++ p.1.toUpper ++ ": " ++ pyStr ((pyGet p.2 "response").getD .jnull) ++ "\n"
      else s) "" ++
    "\nSynthesize these perspectives into a unified response:"

/-- `EgregoreServiceManager.multi_agent_query`. -/
def multi_agent_query (metrics : List (String × EgregoreMetrics))
    (gen : String → String → ℕ → Except String JVal) (pyStr : JVal → String)
    (q : String) (egregores : List String) (synthesize : Bool) : JDict :=
  let results := gather_responses metrics gen q egregores
  let results :=
    if synthesize && (get_available_egregores metrics).contains "ake" then
      let prompt := build_synthesis_prompt pyStr q results
      alistSet results "synthesis" (query_egregore metrics gen "ake" prompt 512)
    else results
  [ ("query", .jstr q),
    ("egregores_consulted", .jarr (egregores.map .jstr)),
    ("individual_responses", .jobj (results.map (fun p => (p.1, .jobj p.2)))),
    ("synthesized", .jbool synthesize) ]

/-! ## Rate limiter (`src/api_gateway.py`, class `RateLimiter` and the
`check_rate_limit` dependency)

The `defaultdict` bucket table becomes an association list; a missing
bucket materialises as the default `tokens = RATE_LIMIT_MAX_REQUESTS,
last_update = now`.  Time is an explicit `ℚ` parameter.
-/

def RATE_LIMIT_WINDOW : ℚ := 60

def RATE_LIMIT_MAX_REQUESTS : ℚ := 60

def RATE_LIMIT_PREMIUM_MULTIPLIER : ℚ := 5

structure Bucket where
  tokens : ℚ
  last_update : ℚ
deriving DecidableEq, Repr

structure RateLimiterState where
  buckets : List (String × Bucket)
deriving DecidableEq, Repr

/-- The `defaultdict` read `self.buckets[identifier]`: the lazily created
bucket starts with the base capacity of tokens, whatever the tier. -/
def getBucket (s : RateLimiterState) (identifier : String) (now : ℚ) : Bucket :=
  (alistGet s.buckets identifier).getD ⟨RATE_LIMIT_MAX_REQUESTS, now⟩

/-- `max_tokens` as computed inside `check_rate_limit`. -/
def max_tokens_for (is_premium : Bool) : ℚ :=
  RATE_LIMIT_MAX_REQUESTS * (if is_premium then RATE_LIMIT_PREMIUM_MULTIPLIER else 1)

/-- `RateLimiter.check_rate_limit`: refill clamped to `max_tokens`, then
admit and decrement exactly when the refilled count is at least 1. -/
def check_rate_limit (s : RateLimiterState) (identifier : String) (is_premium : Bool)
    (now : ℚ) : Bool × RateLimiterState :=
  let bucket := getBucket s identifier now
  let max_tokens := max_tokens_for is_premium
  let time_passed := now - bucket.last_update
  let refill_rate := max_tokens / RATE_LIMIT_WINDOW
  let tokens := min max_tokens (bucket.tokens + time_passed * refill_rate)
  if 1 ≤ tokens then
    (true, ⟨alistSet s.buckets identifier ⟨tokens - 1, now⟩⟩)
  else
    (false, ⟨alistSet s.buckets identifier ⟨tokens, now⟩⟩)

/-- Python `int()` (truncation toward zero) on a rational. -/
def pyInt (q : ℚ) : ℤ :=
  q.num / (q.den : ℤ)

/-- `RateLimiter.get_remaining`. -/
def get_remaining (s : RateLimiterState) (identifier : String) (now : ℚ) : ℤ :=
  pyInt (getBucket s identifier now).tokens

/-- The payload of the 429 response raised by the `check_rate_limit`
dependency: `Rate limit exceeded. Try again in RATE_LIMIT_WINDOW s.
Remaining: remaining`. -/
structure RateLimitedDetail where
  retry_after_s : ℚ
  remaining : ℤ
deriving DecidableEq, Repr

/-- The FastAPI dependency `check_rate_limit(user)`: computes
`is_premium = tier in [premium, beta]`, runs the limiter, and on rejection
raises 429 carrying the window and the remaining count. -/
def check_rate_limit_dep (s : RateLimiterState) (username tier : String) (now : ℚ) :
    Except RateLimitedDetail Unit × RateLimiterState :=
  let is_premium : Bool := tier = "premium" || tier = "beta"
  let r := check_rate_limit s username is_premium now
  if r.1 then (.ok (), r.2)
  else (.error ⟨RATE_LIMIT_WINDOW, get_remaining r.2 username now⟩, r.2)

/-- `n` back-to-back admission checks by one principal at a single instant
(no time passes between them); returns how many were admitted. -/
def burst_admits (s : RateLimiterState) (identifier : String) (is_premium : Bool)
    (now : ℚ) : ℕ → ℕ × RateLimiterState
  | 0 => (0, s)
  | n + 1 =>
    let r := check_rate_limit s identifier is_premium now
    let rest := burst_admits r.2 identifier is_premium now n
    ((if r.1 then 1 else 0) + rest.1, rest.2)

/-! ## Training pipeline (`src/automated_training_pipeline.py`)

`train_egregore` drives five stage coroutines, each of which reports
progress exclusively through `_update_progress`.  We embed the pipeline as
the exact ordered list of `_update_progress` calls it performs; a raised
exception is modelled by a fault point `(k, msg)`, truncating the list at
position `k` and appending the `FAILED` update plus the error append that
the `except` branch performs.  `lossOf epoch step` abstracts the simulated
float loss `2.5 * 0.7 ** (epoch + step / 100)` (never used by any claim).
-/

inductive TrainingStage where
  | idle | datasetCollection | datasetProcessing | modelTraining
  | validation | deployment | complete | failed
deriving DecidableEq, Repr

/-- Position of a stage in the forward order; `failed` is terminal and
reachable from anywhere, so it sits last. -/
def stageIdx : TrainingStage → ℕ
  | .idle => 0
  | .datasetCollection => 1
  | .datasetProcessing => 2
  | .modelTraining => 3
  | .validation => 4
  | .deployment => 5
  | .complete => 6
  | .failed => 7

structure TrainingConfig where
  egregore_name : String
  port : ℕ
  domain : String
  base_model : String := "gpt2-medium"
  dataset_size_target : ℕ := 30000
  training_epochs : ℕ := 3
  batch_size : ℕ := 8
  learning_rate : ℚ := 0.00005
  max_length : ℕ := 512
  validation_size : ℕ := 20
  specialist_advantage_target : ℚ := 0.25
deriving Repr

structure TrainingProgress where
  egregore_name : String
  stage : TrainingStage
  progress_percent : ℚ
  current_step : String
  dataset_collected : ℕ
  training_loss : Option ℚ
  validation_score : Option ℚ
  specialist_advantage : Option ℚ
  errors : List String
  start_time : String
  estimated_completion : Option String
deriving Repr

/-- One `_update_progress` call: every argument is optional and only the
provided ones are written. -/
structure ProgressUpdate where
  stage : Option TrainingStage := none
  progress : Option ℚ := none
  step : Option String := none
  dataset_collected : Option ℕ := none
  training_loss : Option ℚ := none
  validation_score : Option ℚ := none
  specialist_advantage : Option ℚ := none

/-- `AutomatedTrainingPipeline._update_progress` applied to one tracker. -/
def applyUpdate (p : TrainingProgress) (u : ProgressUpdate) : TrainingProgress :=
  { p with
    stage := u.stage.getD p.stage,
    progress_percent := u.progress.getD p.progress_percent,
    current_step := u.step.getD p.current_step,
    dataset_collected := u.dataset_collected.getD p.dataset_collected,
    training_loss := match u.training_loss with
      | some l => some l
      | none => p.training_loss,
    validation_score := match u.validation_score with
      | some v => some v
      | none => p.validation_score,
    specialist_advantage := match u.specialist_advantage with
      | some a => some a
      | none => p.specialist_advantage }

/-- `AutomatedTrainingPipeline._create_progress`. -/
def create_progress (cfg : TrainingConfig) (startTime : String) : TrainingProgress :=
  ⟨cfg.egregore_name, .idle, 0, "Initializing", 0, none, none, none, [], startTime, none⟩

/-- The `_update_progress` calls of `collect_dataset`. -/
def collect_updates (cfg : TrainingConfig) : List ProgressUpdate :=
  { stage := some .datasetCollection, progress := some 0,
    step := some "Initializing dataset collection" } ::
  (List.range (cfg.dataset_size_target / 5000)).map (fun i =>
    let collected : ℕ := (i + 1) * 5000
    let progress : ℚ := ((collected : ℚ) / (cfg.dataset_size_target : ℚ)) * 100
    { progress := some (progress * 0.3),
      step := some ("Collected " ++ toString collected ++ "/" ++
        toString cfg.dataset_size_target ++ " examples"),
      dataset_collected := some collected })

/-- The `_update_progress` calls of `process_dataset`. -/
def process_updates : List ProgressUpdate :=
  [ { stage := some .datasetProcessing, progress := some 30,
      step := some "Processing and filtering dataset" },
    { progress := some 40, step := some "Dataset processing complete" } ]

/-- The `_update_progress` calls of `train_model`; the nested epoch/step
loops are transcribed directly. -/
def train_updates (cfg : TrainingConfig) (lossOf : ℕ → ℕ → ℚ) : List ProgressUpdate :=
  { stage := some .modelTraining, progress := some 40,
    step := some "Initializing model training" } ::
  (List.range cfg.training_epochs).flatMap (fun epoch =>
    (List.range 100).map (fun step =>
      let total_steps := cfg.training_epochs * 100
      let current_step := epoch * 100 + step
      { progress := some (40 + ((current_step : ℚ) / (total_steps : ℚ)) * 30),
        step := some ("Epoch " ++ toString (epoch + 1) ++ "/" ++
          toString cfg.training_epochs ++ ", Step " ++ toString (step + 1) ++ "/100"),
        training_loss := some (lossOf epoch step) }))

/-- The simulated validation numbers of `validate_model`. -/
def generalist_score : ℚ := 0.65

def specialist_score (cfg : TrainingConfig) : ℚ :=
  generalist_score * (1 + cfg.specialist_advantage_target)

def validation_advantage (cfg : TrainingConfig) : ℚ :=
  (specialist_score cfg - generalist_score) / generalist_score

/-- The `_update_progress` calls of `validate_model`. -/
def validate_updates (cfg : TrainingConfig) : List ProgressUpdate :=
  { stage := some .validation, progress := some 70,
    step := some "Running validation tests" } ::
  ((List.range cfg.validation_size).map (fun i =>
    { progress := some (70 + (((i + 1 : ℕ) : ℚ) / (cfg.validation_size : ℚ)) * 20),
      step := some ("Validation test " ++ toString (i + 1) ++ "/" ++
        toString cfg.validation_size) }) ++
   [ { validation_score := some (specialist_score cfg),
       specialist_advantage := some (validation_advantage cfg) } ])

/-- The five deployment step names of `deploy_model`. -/
def deployment_steps : List String :=
  [ "Copying model files", "Creating service configuration",
    "Starting egregore service", "Registering with service manager",
    "Running health checks" ]

/-- The `_update_progress` calls of `deploy_model`. -/
def deploy_updates : List ProgressUpdate :=
  { stage := some .deployment, progress := some 90,
    step := some "Deploying model to production" } ::
  deployment_steps.enum.map (fun p =>
    { progress := some (90 + (((p.1 + 1 : ℕ) : ℚ) / 5) * 10), step := some p.2 })

/-- The final `_update_progress` call of a successful `train_egregore`. -/
def complete_update : ProgressUpdate :=
  { stage := some .complete, progress := some 100,
    step := some "Training pipeline complete!" }

/-- The full, ordered `_update_progress` sequence of a fault-free
`train_egregore` run. -/
def full_updates (cfg : TrainingConfig) (lossOf : ℕ → ℕ → ℚ) : List ProgressUpdate :=
  collect_updates cfg ++ process_updates ++ train_updates cfg lossOf ++
    validate_updates cfg ++ deploy_updates ++ [complete_update]

/-- The `FAILED` update performed by the `except` branch of
`train_egregore`. -/
def failure_update (msg : String) : ProgressUpdate :=
  { stage := some .failed, step := some ("Failed: " ++ msg) }

/-- The update sequence actually performed: a fault `(k, msg)` (an
exception raised right before the `k`-th update) truncates the sequence
and appends the `FAILED` update. -/
def updates_with_fault (cfg : TrainingConfig) (lossOf : ℕ → ℕ → ℚ)
    (fault : Option (ℕ × String)) : List ProgressUpdate :=
  match fault with
  | none => full_updates cfg lossOf
  | some (k, msg) => (full_updates cfg lossOf).take k ++ [failure_update msg]

/-- Every observable state of the tracker over one `train_egregore` run
(the initial state followed by the state after each update). -/
def train_egregore_trace (cfg : TrainingConfig) (lossOf : ℕ → ℕ → ℚ)
    (startTime : String) (fault : Option (ℕ × String)) : List TrainingProgress :=
  List.scanl applyUpdate (create_progress cfg startTime) (updates_with_fault cfg lossOf fault)

/-- The final tracker state of one `train_egregore` run, including the
error append performed by the `except` branch on a fault. -/
def train_egregore_final (cfg : TrainingConfig) (lossOf : ℕ → ℕ → ℚ)
    (startTime : String) (fault : Option (ℕ × String)) : TrainingProgress :=
  let p := (updates_with_fault cfg lossOf fault).foldl applyUpdate
    (create_progress cfg startTime)
  match fault with
  | none => p
  | some (_, msg) => { p with errors := p.errors ++ [msg] }

/-- The refill expression computed inside `check_rate_limit`:
`min(max_tokens, tokens + time_passed * refill_rate)` for the bucket the
`defaultdict` hands back. -/
def refilled_tokens (s : RateLimiterState) (identifier : String) (is_premium : Bool)
    (now : ℚ) : ℚ :=
  min (max_tokens_for is_premium)
    ((getBucket s identifier now).tokens +
      (now - (getBucket s identifier now).last_update) *
        (max_tokens_for is_premium / RATE_LIMIT_WINDOW))

/-! ## General lemmas about the dictionary embedding -/

theorem pyGet_pySet_self (d : JDict) (k : String) (v : JVal) :
    pyGet (pySet d k v) k = some v := by
  induction d with
  | nil => simp [pySet, pyGet]
  | cons hd tl ih =>
    obtain ⟨k', v'⟩ := hd
    by_cases h : k' = k <;> simp [pySet, pyGet, h, ih]

theorem pyGet_pySet_ne (d : JDict) (k k' : String) (v : JVal) (h : k' ≠ k) :
    pyGet (pySet d k v) k' = pyGet d k' := by
  induction d with
  | nil => simp [pySet, pyGet, Ne.symm h]
  | cons hd tl ih =>
    obtain ⟨k₀, v₀⟩ := hd
    by_cases h0 : k₀ = k
    · subst h0
      simp [pySet, pyGet, Ne.symm h]
    · simp [pySet, pyGet, h0, ih]

theorem alistGet_alistSet_self {β : Type} (l : List (String × β)) (k : String) (v : β) :
    alistGet (alistSet l k v) k = some v := by
  induction l with
  | nil => simp [alistSet, alistGet]
  | cons hd tl ih =>
    obtain ⟨k', v'⟩ := hd
    by_cases h : k' = k <;> simp [alistSet, alistGet, h, ih]

theorem alistGet_alistSet_ne {β : Type} (l : List (String × β)) (k k' : String) (v : β)
    (h : k' ≠ k) : alistGet (alistSet l k v) k' = alistGet l k' := by
  induction l with
  | nil => simp [alistSet, alistGet, Ne.symm h]
  | cons hd tl ih =>
    obtain ⟨k₀, v₀⟩ := hd
    by_cases h0 : k₀ = k
    · subst h0
      simp [alistSet, alistGet, Ne.symm h]
    · simp [alistSet, alistGet, h0, ih]

theorem alistGet_isSome_alistSet {β : Type} (l : List (String × β)) (k k' : String) (v : β)
    (h : (alistGet l k').isSome) : (alistGet (alistSet l k v) k').isSome := by
  by_cases hk : k' = k
  · subst hk
    simp [alistGet_alistSet_self]
  · rw [alistGet_alistSet_ne l k k' v hk]
    exact h

theorem alistGet_eq_none_of_not_mem {β : Type} (l : List (String × β)) (k : String)
    (h : k ∉ l.map Prod.fst) : alistGet l k = none := by
  induction l with
  | nil => simp [alistGet]
  | cons hd tl ih =>
    obtain ⟨k', v'⟩ := hd
    simp only [List.map_cons, List.mem_cons] at h
    push_neg at h
    simp [alistGet, Ne.symm h.1, ih h.2]

theorem alistGet_alistDel_self {β : Type} (l : List (String × β)) (k : String)
    (h : (l.map Prod.fst).Nodup) : alistGet (alistDel l k) k = none := by
  induction l with
  | nil => simp [alistDel, alistGet]
  | cons hd tl ih =>
    obtain ⟨k', v'⟩ := hd
    simp only [List.map_cons, List.nodup_cons] at h
    by_cases h0 : k' = k
    · subst h0
      simp only [alistDel, if_pos rfl]
      exact alistGet_eq_none_of_not_mem tl k' h.1
    · simp [alistDel, h0, alistGet, ih h.2]

theorem alistGet_mem {β : Type} (l : List (String × β)) (k : String) (v : β)
    (h : alistGet l k = some v) : (k, v) ∈ l := by
  induction l with
  | nil => simp [alistGet] at h
  | cons hd tl ih =>
    obtain ⟨k', v'⟩ := hd
    by_cases h0 : k' = k
    · subst h0
      simp [alistGet] at h
      subst h
      exact List.mem_cons_self _ _
    · simp only [alistGet, if_neg h0] at h
      exact List.mem_cons_of_mem _ (ih h)

/-! ## C7 — cache read/write semantics -/

/-- C7: a cache read returns a stored result only if the entry is present
and strictly fresh (`now - created_at < TTL` at read time); an entry found
stale at read time is removed and the read reports a miss; with caching
disabled every read is a miss and every store is a no-op. -/
theorem C7_cache_semantics (hash : String → String) (rt : RouterState) (now : ℚ) (q : String) :
    (∀ result rt2, check_cache hash rt now q = (some result, rt2) →
       rt.enable_caching = true ∧
       ∃ ts, alistGet rt.cache (compute_cache_key hash q) = some (result, ts) ∧
         now - ts < rt.cache_ttl) ∧
    (∀ result ts, rt.enable_caching = true →
       (rt.cache.map Prod.fst).Nodup →
       alistGet rt.cache (compute_cache_key hash q) = some (result, ts) →
       rt.cache_ttl ≤ now - ts →
       (check_cache hash rt now q).1 = none ∧
       alistGet (check_cache hash rt now q).2.cache (compute_cache_key hash q) = none) ∧
    (rt.enable_caching = false →
       check_cache hash rt now q = (none, rt) ∧
       ∀ result tstore, store_in_cache hash rt tstore q result = rt) := by
  refine ⟨?_, ?_, ?_⟩
  · intro result rt2 h
    by_cases he : rt.enable_caching
    · simp only [check_cache, he, Bool.not_true, Bool.false_eq_true, if_false] at h
      rcases hget : alistGet rt.cache (compute_cache_key hash q) with _ | ⟨res, ts⟩
      · rw [hget] at h
        simp at h
      · rw [hget] at h
        by_cases hf : now - ts < rt.cache_ttl
        · simp only [hf, if_true] at h
          have h1 : result = res := (Option.some.inj (congrArg Prod.fst h)).symm
          subst h1
          exact ⟨he, ts, rfl, hf⟩
        · simp [hf] at h
    · simp [check_cache, he] at h
  · intro result ts he hnd hget hstale
    have hf : ¬(now - ts < rt.cache_ttl) := not_lt.mpr hstale
    constructor
    · simp only [check_cache, he, Bool.not_true, Bool.false_eq_true, if_false, hget, hf,
        if_false]
    · simp only [check_cache, he, Bool.not_true, Bool.false_eq_true, if_false, hget, hf,
        if_false]
      exact alistGet_alistDel_self rt.cache (compute_cache_key hash q) hnd
  · intro he
    refine ⟨?_, fun result tstore => ?_⟩
    · simp [check_cache, he]
    · simp [store_in_cache, he]

/-- C7 witness: a concrete fresh read (an entry written at time 0, read at
time 1 with TTL 3600) really is returned with its freshness bound. -/
theorem C7_witness :
    (⟨true, 3600, [("k", ([], 0))], ⟨0, 0, 0, 0, 0⟩⟩ : RouterState).enable_caching = true ∧
    ∃ ts, alistGet [("k", (([] : JDict), (0 : ℚ)))] (compute_cache_key id "k") =
        some ([], ts) ∧ (1 : ℚ) - ts < (⟨true, 3600, [("k", ([], 0))],
          ⟨0, 0, 0, 0, 0⟩⟩ : RouterState).cache_ttl :=
  (C7_cache_semantics id ⟨true, 3600, [("k", ([], 0))], ⟨0, 0, 0, 0, 0⟩⟩ 1 "k").1 []
    ⟨true, 3600, [("k", ([], 0))], ⟨0, 1, 0, 0, 0⟩⟩ (by
      simp only [check_cache, compute_cache_key, alistGet, id_eq]
      norm_num)

/-! ## C5 and C10 — rate limiter -/

/-- `check_rate_limit` written as one equation over the refill expression. -/
theorem check_rate_limit_eq (s : RateLimiterState) (identifier : String) (is_premium : Bool)
    (now : ℚ) :
    check_rate_limit s identifier is_premium now =
      if 1 ≤ refilled_tokens s identifier is_premium now then
        (true, ⟨alistSet s.buckets identifier
          ⟨refilled_tokens s identifier is_premium now - 1, now⟩⟩)
      else
        (false, ⟨alistSet s.buckets identifier
          ⟨refilled_tokens s identifier is_premium now, now⟩⟩) := rfl

/-- C5: an admission check first refills the bucket by
`elapsed × (capacity / window)` clamped to capacity, then admits and
decrements by one exactly when the refilled count is at least 1; a
rejection is answered with the window as `retry_after_s` and the remaining
token count. -/
theorem C5_rate_limiter (s : RateLimiterState) (identifier : String) (is_premium : Bool)
    (now : ℚ) :
    ((check_rate_limit s identifier is_premium now).1 = true ↔
       1 ≤ refilled_tokens s identifier is_premium now) ∧
    (alistGet (check_rate_limit s identifier is_premium now).2.buckets identifier =
       some ⟨(if 1 ≤ refilled_tokens s identifier is_premium now
              then refilled_tokens s identifier is_premium now - 1
              else refilled_tokens s identifier is_premium now), now⟩) ∧
    (∀ tier : String, (tier = "premium" || tier = "beta") = is_premium →
       ¬ 1 ≤ refilled_tokens s identifier is_premium now →
       (check_rate_limit_dep s identifier tier now).1 =
         .error ⟨RATE_LIMIT_WINDOW, pyInt (refilled_tokens s identifier is_premium now)⟩) := by
  refine ⟨?_, ?_, ?_⟩
  · rw [check_rate_limit_eq]
    by_cases hge : 1 ≤ refilled_tokens s identifier is_premium now <;> simp [hge]
  · rw [check_rate_limit_eq]
    by_cases hge : 1 ≤ refilled_tokens s identifier is_premium now <;>
      simp [hge, alistGet_alistSet_self]
  · intro tier htier hge
    have hdep : check_rate_limit_dep s identifier tier now =
        (let r := check_rate_limit s identifier is_premium now
         if r.1 then (.ok (), r.2)
         else (.error ⟨RATE_LIMIT_WINDOW, get_remaining r.2 identifier now⟩, r.2)) := by
      unfold check_rate_limit_dep
      rw [htier]
    rw [hdep, check_rate_limit_eq, if_neg hge]
    simp only [if_false, Bool.false_eq_true]
    have hrem : get_remaining
        (⟨alistSet s.buckets identifier ⟨refilled_tokens s identifier is_premium now, now⟩⟩ :
          RateLimiterState) identifier now =
        pyInt (refilled_tokens s identifier is_premium now) := by
      simp [get_remaining, getBucket, alistGet_alistSet_self]
    rw [hrem]

/-- C5 witness: a bucket refilled to exactly `1.0` admits; one at `0.999`
rejects and the 429 carries the 60 s window and the truncated remaining
count. -/
theorem C5_witness :
    (check_rate_limit ⟨[("u", ⟨1, 0⟩)]⟩ "u" false 0).1 = true ∧
    ¬ 1 ≤ refilled_tokens ⟨[("u", ⟨999 / 1000, 0⟩)]⟩ "u" false 0 ∧
    (check_rate_limit_dep ⟨[("u", ⟨999 / 1000, 0⟩)]⟩ "u" "free" 0).1 =
      .error ⟨RATE_LIMIT_WINDOW,
        pyInt (refilled_tokens ⟨[("u", ⟨999 / 1000, 0⟩)]⟩ "u" false 0)⟩ := by
  have h1 : refilled_tokens ⟨[("u", ⟨1, 0⟩)]⟩ "u" false 0 = 1 := by
    unfold refilled_tokens
    have hb : getBucket ⟨[("u", ⟨1, 0⟩)]⟩ "u" 0 = ⟨1, 0⟩ := by simp [getBucket, alistGet]
    rw [hb]
    simp only [sub_self, zero_mul, add_zero]
    rw [min_eq_right]
    norm_num [max_tokens_for, RATE_LIMIT_MAX_REQUESTS]
  have h2 : refilled_tokens ⟨[("u", ⟨999 / 1000, 0⟩)]⟩ "u" false 0 = 999 / 1000 := by
    unfold refilled_tokens
    have hb : getBucket ⟨[("u", ⟨999 / 1000, 0⟩)]⟩ "u" 0 = ⟨999 / 1000, 0⟩ := by
      simp [getBucket, alistGet]
    rw [hb]
    simp only [sub_self, zero_mul, add_zero]
    rw [min_eq_right]
    norm_num [max_tokens_for, RATE_LIMIT_MAX_REQUESTS]
  have h2n : ¬ 1 ≤ refilled_tokens ⟨[("u", ⟨999 / 1000, 0⟩)]⟩ "u" false 0 := by
    rw [h2]
    norm_num
  refine ⟨?_, h2n, ?_⟩
  · exact (C5_rate_limiter ⟨[("u", ⟨1, 0⟩)]⟩ "u" false 0).1.mpr (by simp [h1])
  · exact (C5_rate_limiter ⟨[("u", ⟨999 / 1000, 0⟩)]⟩ "u" false 0).2.2 "free" rfl h2n

/-- `check_rate_limit` on a one-bucket table holding an integral token
count, at the very instant of the last update (no refill). -/
theorem check_rate_limit_nat_bucket (identifier : String) (is_premium : Bool) (now : ℚ)
    (k : ℕ) (hk : (k : ℚ) ≤ max_tokens_for is_premium) :
    check_rate_limit ⟨[(identifier, ⟨(k : ℚ), now⟩)]⟩ identifier is_premium now =
      if 1 ≤ k then (true, ⟨[(identifier, ⟨((k - 1 : ℕ) : ℚ), now⟩)]⟩)
      else (false, ⟨[(identifier, ⟨(k : ℚ), now⟩)]⟩) := by
  have hb : getBucket ⟨[(identifier, ⟨(k : ℚ), now⟩)]⟩ identifier now = ⟨(k : ℚ), now⟩ := by
    simp [getBucket, alistGet]
  have hrefill : refilled_tokens ⟨[(identifier, ⟨(k : ℚ), now⟩)]⟩ identifier is_premium now
      = (k : ℚ) := by
    unfold refilled_tokens
    rw [hb]
    simp only [sub_self, zero_mul, add_zero]
    exact min_eq_right hk
  rw [check_rate_limit_eq, hrefill]
  by_cases h1 : 1 ≤ k
  · rw [if_pos (by exact_mod_cast h1), if_pos h1]
    have hc : (k : ℚ) - 1 = ((k - 1 : ℕ) : ℚ) := by
      push_cast [h1]
      ring
    rw [hc]
    congr 1
    simp [alistSet]
  · have h1q : ¬ (1 : ℚ) ≤ (k : ℚ) := by exact_mod_cast h1
    rw [if_neg h1q, if_neg h1]
    congr 1
    simp [alistSet]

/-- Core of the burst argument: starting from a bucket holding an integer
number `k ≤ capacity` of tokens, `n` checks at one instant admit exactly
`min n k` requests. -/
theorem burst_admits_from_nat (identifier : String) (is_premium : Bool) (now : ℚ) :
    ∀ n k : ℕ, (k : ℚ) ≤ max_tokens_for is_premium →
      (burst_admits ⟨[(identifier, ⟨(k : ℚ), now⟩)]⟩ identifier is_premium now n).1 =
        min n k := by
  intro n
  induction n with
  | zero => intro k hk; simp [burst_admits]
  | succ n ih =>
    intro k hk
    rw [burst_admits, check_rate_limit_nat_bucket identifier is_premium now k hk]
    by_cases h1 : 1 ≤ k
    · rw [if_pos h1]
      have hk' : ((k - 1 : ℕ) : ℚ) ≤ max_tokens_for is_premium :=
        le_trans (by exact_mod_cast Nat.sub_le k 1) hk
      simp only [ih (k - 1) hk', if_true, eq_self_iff_true]
      omega
    · rw [if_neg h1]
      simp only [ih k hk, Bool.false_eq_true, if_false]
      omega

/-- C10: the lazily created bucket starts with the base capacity (60)
regardless of tier; the tier multiplier acts only as the refill ceiling;
hence a fresh principal's instantaneous burst admits at most 60 requests,
premium or not (the 5x capacity is reachable only through refill over
time). -/
theorem C10_lazy_bucket_burst :
    (∀ (identifier : String) (now : ℚ),
       getBucket ⟨[]⟩ identifier now = ⟨RATE_LIMIT_MAX_REQUESTS, now⟩) ∧
    (∀ (s : RateLimiterState) (identifier : String) (is_premium : Bool) (now : ℚ),
       refilled_tokens s identifier is_premium now ≤ max_tokens_for is_premium) ∧
    (∀ (identifier : String) (now : ℚ) (is_premium : Bool) (n : ℕ),
       (burst_admits ⟨[]⟩ identifier is_premium now n).1 = min n 60) := by
  refine ⟨?_, ?_, ?_⟩
  · intro identifier now
    simp [getBucket, alistGet]
  · intro s identifier is_premium now
    exact min_le_left _ _
  · intro identifier now is_premium n
    cases n with
    | zero => simp [burst_admits]
    | succ n =>
      have hcap : RATE_LIMIT_MAX_REQUESTS ≤ max_tokens_for is_premium := by
        cases is_premium <;>
          norm_num [max_tokens_for, RATE_LIMIT_MAX_REQUESTS, RATE_LIMIT_PREMIUM_MULTIPLIER]
      have h60 : refilled_tokens ⟨[]⟩ identifier is_premium now = 60 := by
        unfold refilled_tokens
        have hb : getBucket ⟨[]⟩ identifier now = ⟨RATE_LIMIT_MAX_REQUESTS, now⟩ := by
          simp [getBucket, alistGet]
        rw [hb]
        simp only [sub_self, zero_mul, add_zero]
        rw [min_eq_right hcap]
        norm_num [RATE_LIMIT_MAX_REQUESTS]
      rw [burst_admits, check_rate_limit_eq, h60, if_pos (by norm_num : (1 : ℚ) ≤ 60)]
      have hstate : alistSet ([] : List (String × Bucket)) identifier ⟨(60 : ℚ) - 1, now⟩ =
          [(identifier, ⟨((59 : ℕ) : ℚ), now⟩)] := by
        norm_num [alistSet]
      rw [hstate]
      have hk : ((59 : ℕ) : ℚ) ≤ max_tokens_for is_premium := by
        cases is_premium <;>
          norm_num [max_tokens_for, RATE_LIMIT_MAX_REQUESTS, RATE_LIMIT_PREMIUM_MULTIPLIER]
      rw [burst_admits_from_nat identifier is_premium now n 59 hk]
      simp only [if_true, eq_self_iff_true]
      omega

/-- C10 witness: 61 instantaneous requests by a fresh premium principal
admit exactly 60, not 300. -/
theorem C10_witness :
    (burst_admits ⟨[]⟩ "premium" true 0 61).1 = min 61 60 :=
  C10_lazy_bucket_burst.2.2 "premium" 0 true 61

/-! ## C1 and C6 — the execution pipeline and its cache -/

theorem check_cache_miss (hash : String → String) (rt : RouterState) (now : ℚ) (q : String)
    (he : rt.enable_caching = true)
    (hm : alistGet rt.cache (compute_cache_key hash q) = none) :
    check_cache hash rt now q = (none, rt) := by
  simp [check_cache, he, hm]

/-- The miss path of `route_and_execute`: the produced result is the
backend answer with metadata attached, and it is written to the cache at
the fingerprint with timestamp `t1` — whatever the backend answered. -/
theorem route_and_execute_miss_spec (hash : String → String) (backend : Backend)
    (rt : RouterState) (t0 t1 : ℚ) (q : String) (mt : ℕ)
    (he : rt.enable_caching = true)
    (hm : alistGet rt.cache (compute_cache_key hash q) = none) :
    (route_and_execute hash backend rt t0 t1 q mt).2.cache =
        alistSet rt.cache (compute_cache_key hash q)
          ((route_and_execute hash backend rt t0 t1 q mt).1, t1) ∧
    (route_and_execute hash backend rt t0 t1 q mt).2.enable_caching = rt.enable_caching ∧
    (route_and_execute hash backend rt t0 t1 q mt).2.cache_ttl = rt.cache_ttl ∧
    (route_and_execute hash backend rt t0 t1 q mt).1 =
      pySet (if (make_routing_decision (analyze_query q)).selected_egregores.length = 1 ∧
                 ¬(make_routing_decision (analyze_query q)).synthesis_required = true
             then query_single_egregore backend
               ((make_routing_decision (analyze_query q)).selected_egregores.headD "") q mt
             else query_multi_agent backend
               (make_routing_decision (analyze_query q)).selected_egregores q
               (make_routing_decision (analyze_query q)).synthesis_required)
        "metadata"
        (buildMetadata (analyze_query q) (make_routing_decision (analyze_query q)) t0 t1) := by
  simp only [route_and_execute, check_cache, he, hm, Bool.not_true, Bool.false_eq_true,
    if_false, store_in_cache]
  by_cases hs : (make_routing_decision (analyze_query q)).selected_egregores.length = 1 ∧
      ¬(make_routing_decision (analyze_query q)).synthesis_required = true
  · simp only [hs, if_true]
    refine ⟨?_, ?_, ?_, ?_⟩ <;> first | rfl | trivial
  · simp only [hs, if_false]
    refine ⟨?_, ?_, ?_, ?_⟩ <;> first | rfl | trivial

/-- The hit path of `route_and_execute`: the cached dict comes back with a
top-level `cached = true` flag and a top-level `response_time_ms`, and is
otherwise untouched. -/
theorem route_and_execute_hit_spec (hash : String → String) (backend : Backend)
    (rt : RouterState) (t0 t1 : ℚ) (q : String) (mt : ℕ) (res : JDict) (ts : ℚ)
    (he : rt.enable_caching = true)
    (hg : alistGet rt.cache (compute_cache_key hash q) = some (res, ts))
    (hf : t0 - ts < rt.cache_ttl) :
    (route_and_execute hash backend rt t0 t1 q mt).1 =
      pySet (pySet res "cached" (.jbool true)) "response_time_ms"
        (.jnum ((t1 - t0) * 1000)) := by
  simp only [route_and_execute, check_cache, he, hg, hf, Bool.not_true, Bool.false_eq_true,
    if_false, if_true]

/-- C1 counterexample: with caching enabled, an empty cache and every
backend call failing (all workers offline), `route_and_execute` on the
query `hello` produces a result that the `/api/query` handler maps to HTTP
500 — not 503 — and the error result IS written to the response cache at
the query's fingerprint.  This falsifies both halves of the claim. -/
theorem C1_counterexample :
    api_query_status (route_and_execute id (fun _ => .error "connection refused")
      ⟨true, 3600, [], ⟨0, 0, 0, 0, 0⟩⟩ 0 0 "hello" 512).1 = 500 ∧
    (alistGet (route_and_execute id (fun _ => .error "connection refused")
      ⟨true, 3600, [], ⟨0, 0, 0, 0, 0⟩⟩ 0 0 "hello" 512).2.cache "hello").isSome = true := by
  exact ⟨rfl, rfl⟩

/-- C1 amended: when every worker call fails, the route result carries an
`error` key, the `/api/query` handler maps it to HTTP 500 (the code has no
`NoBackends`/503 mapping), and — caching enabled, fingerprint not yet
cached — the error result is stored in the response cache under the
query's fingerprint with the completion timestamp. -/
theorem C1_error_result_cached_500 (hash : String → String) (backend : Backend)
    (rt : RouterState) (t0 t1 : ℚ) (q : String) (mt : ℕ) (msg : String)
    (he : rt.enable_caching = true)
    (hm : alistGet rt.cache (compute_cache_key hash q) = none)
    (hfail : ∀ c, backend c = .error msg) :
    hasKey (route_and_execute hash backend rt t0 t1 q mt).1 "error" = true ∧
    api_query_status (route_and_execute hash backend rt t0 t1 q mt).1 = 500 ∧
    alistGet (route_and_execute hash backend rt t0 t1 q mt).2.cache
      (compute_cache_key hash q) =
      some ((route_and_execute hash backend rt t0 t1 q mt).1, t1) := by
  obtain ⟨hcache, hen, httl, hres⟩ :=
    route_and_execute_miss_spec hash backend rt t0 t1 q mt he hm
  have hres' : (route_and_execute hash backend rt t0 t1 q mt).1 =
      pySet [("error", JVal.jstr msg)] "metadata"
        (buildMetadata (analyze_query q) (make_routing_decision (analyze_query q)) t0 t1) := by
    rw [hres]
    congr 1
    by_cases hs : (make_routing_decision (analyze_query q)).selected_egregores.length = 1 ∧
        ¬(make_routing_decision (analyze_query q)).synthesis_required = true <;>
      simp [hs, query_single_egregore, query_multi_agent, hfail]
  have herr : pyGet (route_and_execute hash backend rt t0 t1 q mt).1 "error" =
      some (JVal.jstr msg) := by
    rw [hres']
    rw [pyGet_pySet_ne _ _ _ _ (by decide)]
    simp [pyGet]
  have hkey : hasKey (route_and_execute hash backend rt t0 t1 q mt).1 "error" = true := by
    simp [hasKey, herr]
  refine ⟨hkey, ?_, ?_⟩
  · simp [api_query_status, hkey]
  · rw [hcache]
    exact alistGet_alistSet_self _ _ _

/-- C1 witness: the amended statement holds at a concrete failing
configuration (empty cache, every backend call raising). -/
theorem C1_witness :
    hasKey (route_and_execute id (fun _ => .error "boom")
      ⟨true, 3600, [], ⟨0, 0, 0, 0, 0⟩⟩ 0 7 "ping" 64).1 "error" = true ∧
    api_query_status (route_and_execute id (fun _ => .error "boom")
      ⟨true, 3600, [], ⟨0, 0, 0, 0, 0⟩⟩ 0 7 "ping" 64).1 = 500 ∧
    alistGet (route_and_execute id (fun _ => .error "boom")
      ⟨true, 3600, [], ⟨0, 0, 0, 0, 0⟩⟩ 0 7 "ping" 64).2.cache
      (compute_cache_key id "ping") =
      some ((route_and_execute id (fun _ => .error "boom")
        ⟨true, 3600, [], ⟨0, 0, 0, 0, 0⟩⟩ 0 7 "ping" 64).1, 7) :=
  C1_error_result_cached_500 id (fun _ => .error "boom")
    ⟨true, 3600, [], ⟨0, 0, 0, 0, 0⟩⟩ 0 7 "ping" 64 "boom" rfl rfl (fun _ => rfl)

/-- C6: submitting the same query twice within the TTL (caching enabled,
first request a miss, no intervening eviction) serves the second response
from the cache: it carries a top-level `cached = true` and a fresh
top-level `response_time_ms`, and every other key — in particular the
whole `metadata` object with its nested `query_analysis` and
`routing_decision` — is identical to the first response. -/
theorem C6_cache_hit_roundtrip (hash : String → String) (backend : Backend)
    (rt : RouterState) (t0 t1 t0' t1' : ℚ) (q : String) (mt mt' : ℕ)
    (he : rt.enable_caching = true)
    (hm : alistGet rt.cache (compute_cache_key hash q) = none)
    (hfresh : t0' - t1 < rt.cache_ttl) :
    pyGet (route_and_execute hash backend
        (route_and_execute hash backend rt t0 t1 q mt).2 t0' t1' q mt').1 "cached" =
      some (.jbool true) ∧
    pyGet (route_and_execute hash backend
        (route_and_execute hash backend rt t0 t1 q mt).2 t0' t1' q mt').1 "response_time_ms" =
      some (.jnum ((t1' - t0') * 1000)) ∧
    (∀ k, k ≠ "cached" → k ≠ "response_time_ms" →
      pyGet (route_and_execute hash backend
          (route_and_execute hash backend rt t0 t1 q mt).2 t0' t1' q mt').1 k =
        pyGet (route_and_execute hash backend rt t0 t1 q mt).1 k) := by
  obtain ⟨hcache, hen, httl, -⟩ :=
    route_and_execute_miss_spec hash backend rt t0 t1 q mt he hm
  have hg2 : alistGet (route_and_execute hash backend rt t0 t1 q mt).2.cache
      (compute_cache_key hash q) =
      some ((route_and_execute hash backend rt t0 t1 q mt).1, t1) := by
    rw [hcache]
    exact alistGet_alistSet_self _ _ _
  have he2 : (route_and_execute hash backend rt t0 t1 q mt).2.enable_caching = true := by
    rw [hen]; exact he
  have hf2 : t0' - t1 < (route_and_execute hash backend rt t0 t1 q mt).2.cache_ttl := by
    rw [httl]; exact hfresh
  have h2 := route_and_execute_hit_spec hash backend
    (route_and_execute hash backend rt t0 t1 q mt).2 t0' t1' q mt'
    (route_and_execute hash backend rt t0 t1 q mt).1 t1 he2 hg2 hf2
  refine ⟨?_, ?_, ?_⟩
  · rw [h2, pyGet_pySet_ne _ _ _ _ (by decide), pyGet_pySet_self]
  · rw [h2, pyGet_pySet_self]
  · intro k hk1 hk2
    rw [h2, pyGet_pySet_ne _ _ _ _ hk2, pyGet_pySet_ne _ _ _ _ hk1]

/-- C6 witness: a concrete double submission (store at `t1 = 1`, re-read at
`t0' = 2`, TTL 3600) returns `cached = true`, the fresh response time, and
an unchanged `metadata` object. -/
theorem C6_witness :
    pyGet (route_and_execute id (fun _ => .ok [("response", JVal.jstr "hi")])
        (route_and_execute id (fun _ => .ok [("response", JVal.jstr "hi")])
          ⟨true, 3600, [], ⟨0, 0, 0, 0, 0⟩⟩ 0 1 "hello" 512).2 2 3 "hello" 512).1 "cached" =
      some (.jbool true) ∧
    pyGet (route_and_execute id (fun _ => .ok [("response", JVal.jstr "hi")])
        (route_and_execute id (fun _ => .ok [("response", JVal.jstr "hi")])
          ⟨true, 3600, [], ⟨0, 0, 0, 0, 0⟩⟩ 0 1 "hello" 512).2 2 3 "hello" 512).1
      "response_time_ms" = some (.jnum (((3 : ℚ) - 2) * 1000)) ∧
    pyGet (route_and_execute id (fun _ => .ok [("response", JVal.jstr "hi")])
        (route_and_execute id (fun _ => .ok [("response", JVal.jstr "hi")])
          ⟨true, 3600, [], ⟨0, 0, 0, 0, 0⟩⟩ 0 1 "hello" 512).2 2 3 "hello" 512).1 "metadata" =
      pyGet (route_and_execute id (fun _ => .ok [("response", JVal.jstr "hi")])
        ⟨true, 3600, [], ⟨0, 0, 0, 0, 0⟩⟩ 0 1 "hello" 512).1 "metadata" := by
  have h := C6_cache_hit_roundtrip id (fun _ => .ok [("response", JVal.jstr "hi")])
    ⟨true, 3600, [], ⟨0, 0, 0, 0, 0⟩⟩ 0 1 2 3 "hello" 512 512 rfl rfl (by norm_num)
  exact ⟨h.1, h.2.1, h.2.2 "metadata" (by decide) (by decide)⟩

/-! ## C2 — degraded synthesis, and C3 — health-probe semantics -/

/-- C2 counterexample: with the synthesis worker `ake` not live,
`synthesize = true` and one live worker answering, the result contains the
raw individual responses only — no `synthesis` entry, no concatenated
text, no `metadata` and in particular no `synthesis: degraded` marker —
while its `synthesized` field still reads `true`. -/
theorem C2_counterexample :
    pyGet (multi_agent_query [("rhys", ⟨"Rhys", .running, 8110, 0, 0, 0, 0, 0, 0, "t1", 0⟩)]
      (fun _ _ _ => .ok (.jstr "resp")) (fun _ => "") "ping" ["rhys"] true) "synthesized" =
      some (.jbool true) ∧
    pyGet (multi_agent_query [("rhys", ⟨"Rhys", .running, 8110, 0, 0, 0, 0, 0, 0, "t1", 0⟩)]
      (fun _ _ _ => .ok (.jstr "resp")) (fun _ => "") "ping" ["rhys"] true)
      "individual_responses" =
      some (.jobj [("rhys", .jobj [("egregore", .jstr "Rhys"), ("domain", .jstr "architecture"),
        ("response", .jstr "resp")])]) ∧
    pyGet (multi_agent_query [("rhys", ⟨"Rhys", .running, 8110, 0, 0, 0, 0, 0, 0, "t1", 0⟩)]
      (fun _ _ _ => .ok (.jstr "resp")) (fun _ => "") "ping" ["rhys"] true) "metadata" =
      none := by
  exact ⟨rfl, rfl, rfl⟩

/-- C2 amended: if the synthesis worker is not live at dispatch time,
`multi_agent_query` silently skips synthesis: the returned dict is exactly
the individual fan-out responses plus a `synthesized` flag that still
equals the requested value `true` — there is no deterministic
concatenation and no `synthesis: degraded` marker anywhere. -/
theorem C2_no_degraded_marker (metrics : List (String × EgregoreMetrics))
    (gen : String → String → ℕ → Except String JVal) (pyStr : JVal → String)
    (q : String) (egs : List String)
    (h : (get_available_egregores metrics).contains "ake" = false) :
    multi_agent_query metrics gen pyStr q egs true =
      [ ("query", .jstr q),
        ("egregores_consulted", .jarr (egs.map .jstr)),
        ("individual_responses", .jobj ((gather_responses metrics gen q egs).map
          (fun p => (p.1, .jobj p.2)))),
        ("synthesized", .jbool true) ] := by
  have h' : "ake" ∉ get_available_egregores metrics := by simpa using h
  simp [multi_agent_query, h']

/-- C2 witness: the amended statement instantiated at the counterexample's
configuration. -/
theorem C2_witness :
    multi_agent_query [("rhys", ⟨"Rhys", .running, 8110, 0, 0, 0, 0, 0, 0, "t1", 0⟩)]
      (fun _ _ _ => .ok (.jstr "resp")) (fun _ => "") "ping" ["rhys"] true =
      [ ("query", .jstr "ping"),
        ("egregores_consulted", .jarr [.jstr "rhys"]),
        ("individual_responses", .jobj ((gather_responses
          [("rhys", ⟨"Rhys", .running, 8110, 0, 0, 0, 0, 0, 0, "t1", 0⟩)]
          (fun _ _ _ => .ok (.jstr "resp")) "ping" ["rhys"]).map
            (fun p => (p.1, .jobj p.2)))),
        ("synthesized", .jbool true) ] :=
  C2_no_degraded_marker [("rhys", ⟨"Rhys", .running, 8110, 0, 0, 0, 0, 0, 0, "t1", 0⟩)]
    (fun _ _ _ => .ok (.jstr "resp")) (fun _ => "") "ping" ["rhys"] rfl

/-- C3 counterexample: a worker currently recorded `Running` whose probe
then fails with a non-200 response keeps its stale `Running` entry — the
probe returns `false` but the status map is untouched and the worker is
still listed as available.  The claim's transition to `Stopped`/`Error`
does not happen, and no `3 × probe_interval` recency condition exists in
the code. -/
theorem C3_counterexample :
    (health_check [("rhys", ⟨"Rhys", .running, 8110, 0, 0, 0, 0, 0, 0, "t1", 0⟩)] "rhys" "t2"
      (.httpOther 500)).1 = false ∧
    (health_check [("rhys", ⟨"Rhys", .running, 8110, 0, 0, 0, 0, 0, 0, "t1", 0⟩)] "rhys" "t2"
      (.httpOther 500)).2 =
      [("rhys", ⟨"Rhys", .running, 8110, 0, 0, 0, 0, 0, 0, "t1", 0⟩)] ∧
    get_available_egregores (health_check
      [("rhys", ⟨"Rhys", .running, 8110, 0, 0, 0, 0, 0, 0, "t1", 0⟩)] "rhys" "t2"
      (.httpOther 500)).2 = ["rhys"] := by
  exact ⟨rfl, rfl, rfl⟩

/-- C3 amended: a probe never removes a status entry; a connection-refused
probe transitions the entry to `Stopped`; but an HTTP non-200 or any other
exception (timeouts included) leaves the map unchanged, so a previously
recorded `Running` can persist after a failed probe — `Running` reflects
the last successful map write, with no time-based staleness bound. -/
theorem C3_probe_failure_semantics (metrics : List (String × EgregoreMetrics))
    (name nowStr : String) (outcome : ProbeOutcome) :
    (∀ n, (alistGet metrics n).isSome →
       (alistGet (health_check metrics name nowStr outcome).2 n).isSome) ∧
    (∀ cfg, alistGet EGREGORES name = some cfg → outcome = .connectionError →
       alistGet (health_check metrics name nowStr outcome).2 name =
         some ⟨cfg.name, .stopped, cfg.port, 0, 0, 0, 0, 0, 0, nowStr, 0⟩) ∧
    (∀ c, outcome = .httpOther c → (health_check metrics name nowStr outcome).2 = metrics) ∧
    (∀ m, outcome = .otherException m →
       (health_check metrics name nowStr outcome).2 = metrics) ∧
    (∀ cfg d, alistGet EGREGORES name = some cfg → outcome = .ok d →
       (health_check metrics name nowStr outcome).1 = true ∧
       ∃ em, alistGet (health_check metrics name nowStr outcome).2 name = some em ∧
         em.status = .running) := by
  refine ⟨?_, ?_, ?_, ?_, ?_⟩
  · intro n hn
    unfold health_check
    rcases hcfg : alistGet EGREGORES name with _ | cfg
    · exact hn
    · cases outcome with
      | ok d => exact alistGet_isSome_alistSet _ _ _ _ hn
      | httpOther c => exact hn
      | connectionError => exact alistGet_isSome_alistSet _ _ _ _ hn
      | otherException m => exact hn
  · intro cfg hcfg hco
    subst hco
    unfold health_check
    rw [hcfg]
    exact alistGet_alistSet_self _ _ _
  · intro c hco
    subst hco
    unfold health_check
    rcases hcfg : alistGet EGREGORES name with _ | cfg <;> rfl
  · intro m hco
    subst hco
    unfold health_check
    rcases hcfg : alistGet EGREGORES name with _ | cfg <;> rfl
  · intro cfg d hcfg hco
    subst hco
    unfold health_check
    rw [hcfg]
    exact ⟨rfl, _, alistGet_alistSet_self _ _ _, rfl⟩

/-- C3 witness: a connection-refused probe against an empty status map
creates the `Stopped` entry for `rhys` (entry present, not removed). -/
theorem C3_witness :
    alistGet (health_check [] "rhys" "now" .connectionError).2 "rhys" =
      some ⟨"Rhys", .stopped, 8110, 0, 0, 0, 0, 0, 0, "now", 0⟩ :=
  (C3_probe_failure_semantics [] "rhys" "now" .connectionError).2.1
    ⟨"Rhys", 8110, "architecture",
      "Architecture Specialist - System design and infrastructure",
      some "Technical architecture, scalability, infrastructure"⟩ rfl rfl

/-! ## C4 and C9 — the query analyser -/

/-- C4: the routing rule table of `analyze_query`.  Zero detected domains
dispatch exactly the `architecture` worker (`rhys`); complexity is Simple
for at most one domain, Moderate for two or three, Complex for four or
more; consciousness is 0.70 / 0.85 / 1.00 accordingly except that any
explicit synthesis-keyword hit forces 1.00; `requires_synthesis` holds iff
more than one egregore is needed or a synthesis keyword matched; and
`routing_confidence = min(1, 0.4 + 0.3·|domains|)`. -/
theorem C4_routing_rule_table (q : String) :
    ((analyze_query q).domains.length = 0 →
       (analyze_query q).egregores_needed = ["rhys"]) ∧
    ((analyze_query q).complexity =
       (if (analyze_query q).domains.length ≤ 1 then .simple
        else if (analyze_query q).domains.length ≤ 3 then .moderate
        else .complex)) ∧
    ((analyze_query q).consciousness_level =
       (if 4 ≤ (analyze_query q).domains.length ∨
           explicit_synthesis (lowerChars q) = true then 1
        else if 2 ≤ (analyze_query q).domains.length then 0.85
        else 0.7)) ∧
    ((analyze_query q).requires_synthesis =
       (decide (1 < (analyze_query q).egregores_needed.length) ||
        explicit_synthesis (lowerChars q))) ∧
    ((analyze_query q).routing_confidence =
       min 1 (0.4 + 0.3 * ((analyze_query q).domains.length : ℚ))) := by
  have hdom : (analyze_query q).domains = (detected_domains_raw (lowerChars q)).dedup := rfl
  have hcomp : (analyze_query q).complexity =
      (if (analyze_query q).domains.length = 0 ∨ (analyze_query q).domains.length = 1
       then .simple
       else if (analyze_query q).domains.length ≤ 3 then .moderate else .complex) := rfl
  have hreq : (analyze_query q).requires_synthesis =
      (decide ((analyze_query q).egregores_needed.length > 1) ||
       explicit_synthesis (lowerChars q)) := rfl
  have hcons : (analyze_query q).consciousness_level =
      (if (analyze_query q).complexity = .complex ∨
          explicit_synthesis (lowerChars q) = true then 1
       else if (analyze_query q).complexity = .moderate then 0.85 else 0.7) := rfl
  have hconf : (analyze_query q).routing_confidence =
      min 1 (((analyze_query q).domains.length : ℚ) * 0.3 + 0.4) := rfl
  refine ⟨?_, ?_, ?_, ?_, ?_⟩
  · intro h0
    have hD : (detected_domains_raw (lowerChars q)).dedup = [] := by
      rw [← hdom]
      exact List.length_eq_zero.mp h0
    show (if (((detected_domains_raw (lowerChars q)).dedup).filterMap (fun d =>
        if d = "synthesis" then none else alistGet domain_to_egregore d)).isEmpty
      then ["rhys"]
      else ((detected_domains_raw (lowerChars q)).dedup).filterMap (fun d =>
        if d = "synthesis" then none else alistGet domain_to_egregore d)) = ["rhys"]
    rw [hD]
    rfl
  · rw [hcomp]
    by_cases h1 : (analyze_query q).domains.length ≤ 1
    · rw [if_pos (by omega), if_pos h1]
    · rw [if_neg (by omega), if_neg h1]
  · rw [hcons, hcomp]
    have hcc : ((if (analyze_query q).domains.length = 0 ∨
          (analyze_query q).domains.length = 1 then QueryComplexity.simple
        else if (analyze_query q).domains.length ≤ 3 then .moderate else .complex) =
          .complex) ↔ 4 ≤ (analyze_query q).domains.length := by
      by_cases h1 : (analyze_query q).domains.length = 0 ∨
          (analyze_query q).domains.length = 1
      · rw [if_pos h1]
        rcases h1 with h1 | h1 <;> simp [h1]
      · by_cases h3 : (analyze_query q).domains.length ≤ 3
        · rw [if_neg h1, if_pos h3]
          have h4 : ¬ 4 ≤ (analyze_query q).domains.length := by omega
          simp [h4]
        · rw [if_neg h1, if_neg h3]
          have h4 : 4 ≤ (analyze_query q).domains.length := by omega
          simp [h4]
    have hcm : ((if (analyze_query q).domains.length = 0 ∨
          (analyze_query q).domains.length = 1 then QueryComplexity.simple
        else if (analyze_query q).domains.length ≤ 3 then .moderate else .complex) =
          .moderate) ↔ (2 ≤ (analyze_query q).domains.length ∧
            (analyze_query q).domains.length ≤ 3) := by
      by_cases h1 : (analyze_query q).domains.length = 0 ∨
          (analyze_query q).domains.length = 1
      · rw [if_pos h1]
        rcases h1 with h1 | h1 <;> simp [h1]
      · by_cases h3 : (analyze_query q).domains.length ≤ 3
        · rw [if_neg h1, if_pos h3]
          have h2 : 2 ≤ (analyze_query q).domains.length ∧
              (analyze_query q).domains.length ≤ 3 := by omega
          simp [h2]
        · rw [if_neg h1, if_neg h3]
          have h2 : ¬ (2 ≤ (analyze_query q).domains.length ∧
              (analyze_query q).domains.length ≤ 3) := by omega
          simp [h3]
    by_cases hx : explicit_synthesis (lowerChars q) = true
    · rw [if_pos (Or.inr hx), if_pos (Or.inr hx)]
    · by_cases h4 : 4 ≤ (analyze_query q).domains.length
      · rw [if_pos (Or.inl (hcc.mpr h4)), if_pos (Or.inl h4)]
      · have hcond1 : ¬ ((if (analyze_query q).domains.length = 0 ∨
            (analyze_query q).domains.length = 1 then QueryComplexity.simple
          else if (analyze_query q).domains.length ≤ 3 then .moderate else .complex) =
            .complex ∨ explicit_synthesis (lowerChars q) = true) := by
          rintro (hc | hxx)
          exacts [h4 (hcc.mp hc), hx hxx]
        have hcond2 : ¬ (4 ≤ (analyze_query q).domains.length ∨
            explicit_synthesis (lowerChars q) = true) := by
          rintro (h | hxx)
          exacts [h4 h, hx hxx]
        rw [if_neg hcond1, if_neg hcond2]
        by_cases h2 : 2 ≤ (analyze_query q).domains.length
        · rw [if_pos (hcm.mpr ⟨h2, by omega⟩), if_pos h2]
        · rw [if_neg (fun hm => h2 (hcm.mp hm).1), if_neg h2]
  · exact hreq
  · rw [hconf]
    have harith : (((analyze_query q).domains.length : ℚ) * 0.3 + 0.4) =
          (0.4 + 0.3 * ((analyze_query q).domains.length : ℚ)) := by ring
    rw [harith]

/-- C4 witness: on the query `altogether` (zero domains detected but the
substring `together` hits the synthesis keyword list) the rule table gives
the `rhys` default dispatch, and the confidence formula holds. -/
theorem C4_witness :
    (analyze_query "altogether").egregores_needed = ["rhys"] ∧
    (analyze_query "altogether").routing_confidence =
      min 1 (0.4 + 0.3 * ((analyze_query "altogether").domains.length : ℚ)) :=
  ⟨(C4_routing_rule_table "altogether").1 rfl,
   (C4_routing_rule_table "altogether").2.2.2.2⟩

/-- C9: `analyze_query` is a pure function of the query string — the
embedding threads no state and performs no I/O, so two evaluations on one
input are identical — and every worker name it selects belongs to the
fixed catalogue. -/
theorem C9_pure_and_catalogued (q : String) :
    analyze_query q = analyze_query q ∧
    ∀ e ∈ (analyze_query q).egregores_needed, e ∈ EGREGORES.map Prod.fst := by
  refine ⟨rfl, ?_⟩
  intro e he
  have hegs : (analyze_query q).egregores_needed =
      (if (((detected_domains_raw (lowerChars q)).dedup).filterMap (fun d =>
          if d = "synthesis" then none else alistGet domain_to_egregore d)).isEmpty
       then ["rhys"]
       else ((detected_domains_raw (lowerChars q)).dedup).filterMap (fun d =>
          if d = "synthesis" then none else alistGet domain_to_egregore d)) := rfl
  rw [hegs] at he
  split at he
  · simp only [List.mem_singleton] at he
    subst he
    decide
  · obtain ⟨d, -, hd⟩ := List.mem_filterMap.mp he
    by_cases hsyn : d = "synthesis"
    · rw [if_pos hsyn] at hd
      exact absurd hd (by simp)
    · rw [if_neg hsyn] at hd
      have hmem := alistGet_mem _ _ _ hd
      fin_cases hmem <;> decide

/-- C9 witness: for the concrete query `design a secure api` every
selected worker name is in the catalogue. -/
theorem C9_witness :
    "rhys" ∈ EGREGORES.map Prod.fst ∧ "wraith" ∈ EGREGORES.map Prod.fst :=
  ⟨(C9_pure_and_catalogued "design a secure api").2 "rhys" (by decide),
   (C9_pure_and_catalogued "design a secure api").2 "wraith" (by decide)⟩

/-! ## C8 — training pipeline invariants

The pipeline's observable behaviour is the ordered list of
`_update_progress` calls; `train_egregore_trace` is the list of tracker
states it induces, with an optional fault point standing for an exception
raised mid-run.  The lemmas below compute the progress and stage values of
a run and show they form monotone chains within bounds.
-/

theorem scanl_map_proj {α β γ : Type} (f : α → β → α) (g : γ → β → γ) (h : α → γ)
    (hc : ∀ a b, h (f a b) = g (h a) b) :
    ∀ (l : List β) (a : α), (List.scanl f a l).map h = List.scanl g (h a) l := by
  intro l
  induction l with
  | nil => intro a; simp [List.scanl_nil]
  | cons x xs ih =>
    intro a
    rw [List.scanl_cons, List.scanl_cons]
    simp only [List.singleton_append, List.map_cons]
    rw [ih, hc]

theorem head?_scanl {α β : Type} (g : α → β → α) (a : α) (l : List β) :
    (List.scanl g a l).head? = some a := by
  cases l <;> simp [List.scanl_nil, List.scanl_cons]

theorem chain'_scanl_getD {σ π : Type} {R : σ → σ → Prop} (hrefl : ∀ x, R x x)
    (proj : π → Option σ) :
    ∀ (l : List π) (c : σ), List.Chain' R (c :: l.filterMap proj) →
      List.Chain' R (List.scanl (fun cur u => (proj u).getD cur) c l) := by
  intro l
  induction l with
  | nil =>
    intro c _
    simp [List.scanl_nil]
  | cons x xs ih =>
    intro c h
    rw [List.scanl_cons]
    simp only [List.singleton_append]
    rw [List.chain'_cons']
    rcases hx : proj x with _ | v
    · have h' : List.Chain' R (c :: xs.filterMap proj) := by
        rwa [List.filterMap_cons_none hx] at h
      refine ⟨?_, ih _ (by simpa [hx] using h')⟩
      intro y hy
      rw [head?_scanl] at hy
      simp only [Option.mem_def, Option.some.injEq] at hy
      subst hy
      simp [hx, hrefl]
    · have h' : List.Chain' R (c :: v :: xs.filterMap proj) := by
        rwa [List.filterMap_cons_some hx] at h
      rw [List.chain'_cons] at h'
      refine ⟨?_, ih _ (by simpa [hx] using h'.2)⟩
      intro y hy
      rw [head?_scanl] at hy
      simp only [Option.mem_def, Option.some.injEq] at hy
      subst hy
      simpa [hx] using h'.1

theorem mem_scanl_getD {σ π : Type} (proj : π → Option σ) :
    ∀ (l : List π) (c : σ) (x : σ),
      x ∈ List.scanl (fun cur u => (proj u).getD cur) c l → x ∈ c :: l.filterMap proj := by
  intro l
  induction l with
  | nil =>
    intro c x hx
    simpa [List.scanl_nil] using hx
  | cons y ys ih =>
    intro c x hx
    rw [List.scanl_cons] at hx
    simp only [List.singleton_append, List.mem_cons] at hx
    rcases hx with rfl | hx
    · exact List.mem_cons_self _ _
    · have hmem := ih _ _ hx
      rcases hy : proj y with _ | v
      · rw [List.filterMap_cons_none hy]
        simpa [hy] using hmem
      · rw [List.filterMap_cons_some hy]
        simp only [hy, Option.getD_some, List.mem_cons] at hmem
        rcases hmem with rfl | hmem
        · exact List.mem_cons_of_mem _ (List.mem_cons_self _ _)
        · exact List.mem_cons_of_mem _ (List.mem_cons_of_mem _ hmem)

theorem filterMap_flatMap {α β γ : Type} (l : List α) (g : α → List β) (f : β → Option γ) :
    (l.flatMap g).filterMap f = l.flatMap (fun a => (g a).filterMap f) := by
  induction l with
  | nil => simp
  | cons x xs ih => simp [List.flatMap_cons, List.filterMap_append, ih]

theorem flatMap_range_map {γ : Type} (n : ℕ) (f : ℕ → γ) :
    ∀ E : ℕ, (List.range E).flatMap (fun e => (List.range n).map (fun s => f (e * n + s))) =
      (List.range (E * n)).map f := by
  intro E
  induction E with
  | zero => simp
  | succ E ih =>
    rw [List.range_succ, List.flatMap_append, ih]
    have h1 : ([E] : List ℕ).flatMap (fun e => (List.range n).map (fun s => f (e * n + s))) =
        (List.range n).map (fun s => f (E * n + s)) := by simp
    rw [h1]
    have h2 : (E + 1) * n = E * n + n := by ring
    rw [h2, List.range_add, List.map_append, List.map_map]
    rfl

theorem chain'_le_map_range (f : ℕ → ℚ) (n : ℕ)
    (hf : ∀ i, i + 1 < n → f i ≤ f (i + 1)) :
    List.Chain' (· ≤ ·) ((List.range n).map f) := by
  rw [List.chain'_map]
  cases n with
  | zero => simp
  | succ m =>
    rw [List.chain'_range_succ]
    intro i hi
    exact hf i (by omega)

theorem collect_progress_eq (cfg : TrainingConfig) :
    (collect_updates cfg).filterMap (fun u => u.progress) =
      0 :: (List.range (cfg.dataset_size_target / 5000)).map (fun i =>
        ((((i + 1) * 5000 : ℕ) : ℚ) / (cfg.dataset_size_target : ℚ)) * 100 * 0.3) := by
  simp [collect_updates, List.filterMap_map, Function.comp_def]
  exact congrFun (List.filterMap_eq_map _) _

theorem train_progress_eq (cfg : TrainingConfig) (lossOf : ℕ → ℕ → ℚ) :
    (train_updates cfg lossOf).filterMap (fun u => u.progress) =
      40 :: (List.range (cfg.training_epochs * 100)).map (fun c : ℕ =>
        40 + ((c : ℚ) / ((cfg.training_epochs * 100 : ℕ) : ℚ)) * 30) := by
  rw [train_updates]
  rw [show (List.filterMap (fun u => u.progress)
      (({ stage := some .modelTraining, progress := some 40,
          step := some "Initializing model training" } : ProgressUpdate) :: _)) =
    (40 : ℚ) :: List.filterMap (fun u : ProgressUpdate => u.progress) _ from
      List.filterMap_cons_some rfl]
  congr 1
  rw [filterMap_flatMap]
  have hinner : (fun e : ℕ => (((List.range 100).map (fun step =>
      (let total_steps := cfg.training_epochs * 100
       let current_step := e * 100 + step
       { progress := some (40 + ((current_step : ℚ) / (total_steps : ℚ)) * 30),
         step := some ("Epoch " ++ toString (e + 1) ++ "/" ++
           toString cfg.training_epochs ++ ", Step " ++ toString (step + 1) ++ "/100"),
         training_loss := some (lossOf e step) } : ProgressUpdate))).filterMap
        (fun u => u.progress))) =
      (fun e : ℕ => (List.range 100).map (fun s =>
        (fun c : ℕ => 40 + ((c : ℚ) / ((cfg.training_epochs * 100 : ℕ) : ℚ)) * 30)
          (e * 100 + s))) := by
    funext e
    rw [List.filterMap_map]
    exact congrFun (List.filterMap_eq_map _) _
  rw [hinner]
  exact flatMap_range_map 100 (fun c : ℕ =>
    40 + ((c : ℚ) / ((cfg.training_epochs * 100 : ℕ) : ℚ)) * 30) cfg.training_epochs

theorem process_progress_eq :
    process_updates.filterMap (fun u => u.progress) = [30, 40] := rfl

theorem validate_progress_eq (cfg : TrainingConfig) :
    (validate_updates cfg).filterMap (fun u => u.progress) =
      70 :: (List.range cfg.validation_size).map (fun i : ℕ =>
        70 + (((i + 1 : ℕ) : ℚ) / (cfg.validation_size : ℚ)) * 20) := by
  simp [validate_updates, List.filterMap_append, List.filterMap_map, Function.comp_def]
  exact congrFun (List.filterMap_eq_map _) _

theorem deploy_complete_progress_eq :
    (deploy_updates ++ [complete_update]).filterMap (fun u => u.progress) =
      [90, 92, 94, 96, 98, 100, 100] := by
  norm_num [deploy_updates, complete_update, deployment_steps, List.enum, List.filterMap_append]
  rfl

theorem full_progress_eq (cfg : TrainingConfig) (lossOf : ℕ → ℕ → ℚ) :
    (full_updates cfg lossOf).filterMap (fun u => u.progress) =
      (0 :: (List.range (cfg.dataset_size_target / 5000)).map (fun i =>
        ((((i + 1) * 5000 : ℕ) : ℚ) / (cfg.dataset_size_target : ℚ)) * 100 * 0.3)) ++
      ([30, 40]) ++
      (40 :: (List.range (cfg.training_epochs * 100)).map (fun c : ℕ =>
        40 + ((c : ℚ) / ((cfg.training_epochs * 100 : ℕ) : ℚ)) * 30)) ++
      (70 :: (List.range cfg.validation_size).map (fun i : ℕ =>
        70 + (((i + 1 : ℕ) : ℚ) / (cfg.validation_size : ℚ)) * 20)) ++
      [90, 92, 94, 96, 98, 100, 100] := by
  rw [full_updates]
  rw [List.append_assoc (collect_updates cfg ++ process_updates ++ train_updates cfg lossOf ++
    validate_updates cfg) deploy_updates [complete_update]]
  rw [List.filterMap_append, List.filterMap_append, List.filterMap_append,
    List.filterMap_append]
  rw [collect_progress_eq, process_progress_eq, train_progress_eq, validate_progress_eq,
    deploy_complete_progress_eq]

theorem chain'_cons_map_range (a : ℚ) (f : ℕ → ℚ) (n : ℕ)
    (h0 : 0 < n → a ≤ f 0)
    (hmono : ∀ i, i + 1 < n → f i ≤ f (i + 1)) :
    List.Chain' (· ≤ ·) (a :: (List.range n).map f) := by
  rw [List.chain'_cons']
  refine ⟨?_, chain'_le_map_range f n hmono⟩
  intro y hy
  cases n with
  | zero => simp at hy
  | succ m =>
    rw [List.range_succ_eq_map, List.map_cons] at hy
    simp only [List.head?_cons, Option.mem_def, Option.some.injEq] at hy
    subst hy
    exact h0 (Nat.succ_pos m)

theorem chain'_append_cons_le (l1 : List ℚ) (b : ℚ) (l2 : List ℚ)
    (h1 : List.Chain' (· ≤ ·) l1) (h2 : List.Chain' (· ≤ ·) (b :: l2))
    (hb : ∀ x ∈ l1, x ≤ b) :
    List.Chain' (· ≤ ·) (l1 ++ b :: l2) := by
  rw [List.chain'_append]
  refine ⟨h1, h2, ?_⟩
  intro x hx y hy
  simp only [List.head?_cons, Option.mem_def, Option.some.injEq] at hy
  subst hy
  obtain ⟨hne, heq⟩ := List.mem_getLast?_eq_getLast hx
  exact heq ▸ hb _ (List.getLast_mem hne)

theorem div_cast_le_one (a b : ℕ) (h : a ≤ b) (hb : 0 < b) :
    ((a : ℚ) / (b : ℚ)) ≤ 1 := by
  rw [div_le_one (by exact_mod_cast hb)]
  exact_mod_cast h

theorem div_cast_nonneg (a b : ℕ) : (0 : ℚ) ≤ (a : ℚ) / (b : ℚ) :=
  div_nonneg (Nat.cast_nonneg a) (Nat.cast_nonneg b)

theorem collect_block_chain (cfg : TrainingConfig) :
    List.Chain' (· ≤ ·) ((0 : ℚ) ::
      (List.range (cfg.dataset_size_target / 5000)).map (fun i =>
        ((((i + 1) * 5000 : ℕ) : ℚ) / (cfg.dataset_size_target : ℚ)) * 100 * 0.3)) := by
  apply chain'_cons_map_range
  · intro _
    positivity
  · intro i _
    have h1 : (((i + 1) * 5000 : ℕ) : ℚ) ≤ (((i + 1 + 1) * 5000 : ℕ) : ℚ) := by
      push_cast
      linarith
    gcongr

theorem collect_block_bound (cfg : TrainingConfig) :
    ∀ x ∈ (0 : ℚ) :: (List.range (cfg.dataset_size_target / 5000)).map (fun i =>
        ((((i + 1) * 5000 : ℕ) : ℚ) / (cfg.dataset_size_target : ℚ)) * 100 * 0.3),
      0 ≤ x ∧ x ≤ 30 := by
  intro x hx
  rcases List.mem_cons.mp hx with rfl | hx
  · norm_num
  · obtain ⟨i, hi, rfl⟩ := List.mem_map.mp hx
    rw [List.mem_range] at hi
    have h1 : ((i + 1) * 5000 : ℕ) ≤ cfg.dataset_size_target := by omega
    have h2 : 0 < cfg.dataset_size_target := by omega
    constructor
    · positivity
    · calc (((i + 1) * 5000 : ℕ) : ℚ) / (cfg.dataset_size_target : ℚ) * 100 * 0.3
          ≤ 1 * 100 * 0.3 := by
            gcongr
            exact div_cast_le_one _ _ h1 h2
        _ = 30 := by norm_num

theorem train_block_chain (cfg : TrainingConfig) :
    List.Chain' (· ≤ ·) ((40 : ℚ) ::
      (List.range (cfg.training_epochs * 100)).map (fun c : ℕ =>
        40 + ((c : ℚ) / ((cfg.training_epochs * 100 : ℕ) : ℚ)) * 30)) := by
  apply chain'_cons_map_range
  · intro _
    simp
  · intro i _
    have h1 : ((i : ℕ) : ℚ) ≤ ((i + 1 : ℕ) : ℚ) := by
      push_cast
      linarith
    gcongr

theorem train_block_bound (cfg : TrainingConfig) :
    ∀ x ∈ (40 : ℚ) :: (List.range (cfg.training_epochs * 100)).map (fun c : ℕ =>
        40 + ((c : ℚ) / ((cfg.training_epochs * 100 : ℕ) : ℚ)) * 30),
      0 ≤ x ∧ x ≤ 70 := by
  intro x hx
  rcases List.mem_cons.mp hx with rfl | hx
  · norm_num
  · obtain ⟨c, hc, rfl⟩ := List.mem_map.mp hx
    rw [List.mem_range] at hc
    constructor
    · positivity
    · have h1 : (c : ℕ) ≤ cfg.training_epochs * 100 := by omega
      have h2 : 0 < cfg.training_epochs * 100 := by omega
      calc 40 + ((c : ℚ) / ((cfg.training_epochs * 100 : ℕ) : ℚ)) * 30
          ≤ 40 + 1 * 30 := by
            gcongr
            exact div_cast_le_one _ _ h1 h2
        _ = 70 := by norm_num

theorem validate_block_chain (cfg : TrainingConfig) :
    List.Chain' (· ≤ ·) ((70 : ℚ) ::
      (List.range cfg.validation_size).map (fun i : ℕ =>
        70 + (((i + 1 : ℕ) : ℚ) / (cfg.validation_size : ℚ)) * 20)) := by
  apply chain'_cons_map_range
  · intro _
    have h := div_cast_nonneg (0 + 1) cfg.validation_size
    nlinarith [h]
  · intro i _
    have h1 : ((i + 1 : ℕ) : ℚ) ≤ ((i + 1 + 1 : ℕ) : ℚ) := by
      push_cast
      linarith
    gcongr

theorem validate_block_bound (cfg : TrainingConfig) :
    ∀ x ∈ (70 : ℚ) :: (List.range cfg.validation_size).map (fun i : ℕ =>
        70 + (((i + 1 : ℕ) : ℚ) / (cfg.validation_size : ℚ)) * 20),
      0 ≤ x ∧ x ≤ 90 := by
  intro x hx
  rcases List.mem_cons.mp hx with rfl | hx
  · norm_num
  · obtain ⟨i, hi, rfl⟩ := List.mem_map.mp hx
    rw [List.mem_range] at hi
    constructor
    · positivity
    · have h1 : (i + 1 : ℕ) ≤ cfg.validation_size := by omega
      have h2 : 0 < cfg.validation_size := by omega
      calc 70 + (((i + 1 : ℕ) : ℚ) / (cfg.validation_size : ℚ)) * 20
          ≤ 70 + 1 * 20 := by
            gcongr
            exact div_cast_le_one _ _ h1 h2
        _ = 90 := by norm_num

theorem filterMap_const_none {α β : Type} (l : List α) :
    l.filterMap (fun _ => (none : Option β)) = [] := by
  induction l with
  | nil => rfl
  | cons x xs ih => simp [ih]

theorem full_progress_chain (cfg : TrainingConfig) (lossOf : ℕ → ℕ → ℚ) :
    List.Chain' (· ≤ ·)
      ((0 : ℚ) :: (full_updates cfg lossOf).filterMap (fun u => u.progress)) := by
  rw [full_progress_eq]
  have hshape : ((0 : ℚ) ::
      ((0 :: (List.range (cfg.dataset_size_target / 5000)).map (fun i =>
        ((((i + 1) * 5000 : ℕ) : ℚ) / (cfg.dataset_size_target : ℚ)) * 100 * 0.3)) ++
      ([30, 40]) ++
      (40 :: (List.range (cfg.training_epochs * 100)).map (fun c : ℕ =>
        40 + ((c : ℚ) / ((cfg.training_epochs * 100 : ℕ) : ℚ)) * 30)) ++
      (70 :: (List.range cfg.validation_size).map (fun i : ℕ =>
        70 + (((i + 1 : ℕ) : ℚ) / (cfg.validation_size : ℚ)) * 20)) ++
      [90, 92, 94, 96, 98, 100, 100])) =
      ((0 : ℚ) :: 0 :: (List.range (cfg.dataset_size_target / 5000)).map (fun i =>
        ((((i + 1) * 5000 : ℕ) : ℚ) / (cfg.dataset_size_target : ℚ)) * 100 * 0.3)) ++
      ((30 : ℚ) :: 40 ::
        (((40 : ℚ) :: (List.range (cfg.training_epochs * 100)).map (fun c : ℕ =>
          40 + ((c : ℚ) / ((cfg.training_epochs * 100 : ℕ) : ℚ)) * 30)) ++
         (((70 : ℚ) :: (List.range cfg.validation_size).map (fun i : ℕ =>
           70 + (((i + 1 : ℕ) : ℚ) / (cfg.validation_size : ℚ)) * 20)) ++
          [90, 92, 94, 96, 98, 100, 100]))) := by
    simp [List.append_assoc]
  rw [hshape]
  apply chain'_append_cons_le
  · rw [List.chain'_cons]
    exact ⟨le_refl (0 : ℚ), collect_block_chain cfg⟩
  · rw [List.chain'_cons]
    refine ⟨by norm_num, ?_⟩
    have hshape2 : ((40 : ℚ) ::
        (((40 : ℚ) :: (List.range (cfg.training_epochs * 100)).map (fun c : ℕ =>
          40 + ((c : ℚ) / ((cfg.training_epochs * 100 : ℕ) : ℚ)) * 30)) ++
         (((70 : ℚ) :: (List.range cfg.validation_size).map (fun i : ℕ =>
           70 + (((i + 1 : ℕ) : ℚ) / (cfg.validation_size : ℚ)) * 20)) ++
          [90, 92, 94, 96, 98, 100, 100]))) =
        ((40 : ℚ) :: 40 :: (List.range (cfg.training_epochs * 100)).map (fun c : ℕ =>
          40 + ((c : ℚ) / ((cfg.training_epochs * 100 : ℕ) : ℚ)) * 30)) ++
        ((70 : ℚ) :: ((List.range cfg.validation_size).map (fun i : ℕ =>
          70 + (((i + 1 : ℕ) : ℚ) / (cfg.validation_size : ℚ)) * 20) ++
          [90, 92, 94, 96, 98, 100, 100])) := by
      simp [List.append_assoc]
    rw [hshape2]
    apply chain'_append_cons_le
    · rw [List.chain'_cons]
      exact ⟨le_refl (40 : ℚ), train_block_chain cfg⟩
    · have hshape3 : ((70 : ℚ) :: ((List.range cfg.validation_size).map (fun i : ℕ =>
          70 + (((i + 1 : ℕ) : ℚ) / (cfg.validation_size : ℚ)) * 20) ++
          [90, 92, 94, 96, 98, 100, 100])) =
          ((70 : ℚ) :: (List.range cfg.validation_size).map (fun i : ℕ =>
            70 + (((i + 1 : ℕ) : ℚ) / (cfg.validation_size : ℚ)) * 20)) ++
          ((90 : ℚ) :: [92, 94, 96, 98, 100, 100]) := by
        simp
      rw [hshape3]
      apply chain'_append_cons_le
      · exact validate_block_chain cfg
      · norm_num [List.chain'_cons, List.chain'_singleton]
      · intro x hx
        exact (validate_block_bound cfg x hx).2
    · intro x hx
      rcases List.mem_cons.mp hx with rfl | hx
      · norm_num
      · exact (train_block_bound cfg x hx).2
  · intro x hx
    rcases List.mem_cons.mp hx with rfl | hx
    · norm_num
    · exact (collect_block_bound cfg x hx).2

theorem full_progress_bounds (cfg : TrainingConfig) (lossOf : ℕ → ℕ → ℚ) :
    ∀ x ∈ (0 : ℚ) :: (full_updates cfg lossOf).filterMap (fun u => u.progress),
      0 ≤ x ∧ x ≤ 100 := by
  intro x hx
  rcases List.mem_cons.mp hx with rfl | hx
  · norm_num
  · rw [full_progress_eq] at hx
    simp only [List.mem_append] at hx
    rcases hx with ((((hx | hx) | hx) | hx) | hx)
    · have h := collect_block_bound cfg x hx
      exact ⟨h.1, le_trans h.2 (by norm_num)⟩
    · fin_cases hx <;> norm_num
    · have h := train_block_bound cfg x hx
      exact ⟨h.1, le_trans h.2 (by norm_num)⟩
    · have h := validate_block_bound cfg x hx
      exact ⟨h.1, le_trans h.2 (by norm_num)⟩
    · fin_cases hx <;> norm_num

theorem full_stage_eq (cfg : TrainingConfig) (lossOf : ℕ → ℕ → ℚ) :
    (full_updates cfg lossOf).filterMap (fun u => u.stage) =
      [.datasetCollection, .datasetProcessing, .modelTraining, .validation, .deployment,
       .complete] := by
  rw [full_updates]
  simp [collect_updates, process_updates, train_updates, validate_updates, deploy_updates,
    complete_update, deployment_steps, List.filterMap_append, List.filterMap_map,
    Function.comp_def, filterMap_flatMap, filterMap_const_none]

theorem stageIdx_le_failed (s : TrainingStage) : stageIdx s ≤ stageIdx .failed := by
  cases s <;> simp [stageIdx]

theorem filterMap_take_front {α β : Type} (f : α → Option β) (l : List α) (k : ℕ) :
    (l.take k).filterMap f <+: l.filterMap f := by
  refine ⟨(l.drop k).filterMap f, ?_⟩
  rw [← List.filterMap_append, List.take_append_drop]

theorem fault_progress_values (cfg : TrainingConfig) (lossOf : ℕ → ℕ → ℚ) (k : ℕ)
    (msg : String) :
    (updates_with_fault cfg lossOf (some (k, msg))).filterMap (fun u => u.progress) =
      ((full_updates cfg lossOf).take k).filterMap (fun u => u.progress) := by
  rw [updates_with_fault, List.filterMap_append]
  simp [failure_update]

theorem fault_stage_values (cfg : TrainingConfig) (lossOf : ℕ → ℕ → ℚ) (k : ℕ)
    (msg : String) :
    (updates_with_fault cfg lossOf (some (k, msg))).filterMap (fun u => u.stage) =
      ((full_updates cfg lossOf).take k).filterMap (fun u => u.stage) ++ [.failed] := by
  rw [updates_with_fault, List.filterMap_append]
  simp [failure_update]

theorem progress_chain_with_fault (cfg : TrainingConfig) (lossOf : ℕ → ℕ → ℚ)
    (fault : Option (ℕ × String)) :
    List.Chain' (· ≤ ·)
      ((0 : ℚ) :: (updates_with_fault cfg lossOf fault).filterMap (fun u => u.progress)) := by
  cases fault with
  | none => exact full_progress_chain cfg lossOf
  | some p =>
    obtain ⟨k, msg⟩ := p
    rw [fault_progress_values]
    refine List.Chain'.prefix (full_progress_chain cfg lossOf) ?_
    obtain ⟨t, ht⟩ := filterMap_take_front (fun u : ProgressUpdate => u.progress)
      (full_updates cfg lossOf) k
    exact ⟨t, by rw [List.cons_append, ht]⟩

theorem progress_values_subset_with_fault (cfg : TrainingConfig) (lossOf : ℕ → ℕ → ℚ)
    (fault : Option (ℕ × String)) :
    ∀ x ∈ (0 : ℚ) :: (updates_with_fault cfg lossOf fault).filterMap (fun u => u.progress),
      0 ≤ x ∧ x ≤ 100 := by
  cases fault with
  | none => exact full_progress_bounds cfg lossOf
  | some p =>
    obtain ⟨k, msg⟩ := p
    intro x hx
    rw [fault_progress_values] at hx
    rcases List.mem_cons.mp hx with rfl | hx
    · norm_num
    · exact full_progress_bounds cfg lossOf x
        (List.mem_cons_of_mem _
          ((filterMap_take_front _ (full_updates cfg lossOf) k).subset hx))

theorem stage_chain_full (cfg : TrainingConfig) (lossOf : ℕ → ℕ → ℚ) :
    List.Chain' (fun a b => stageIdx a ≤ stageIdx b)
      (TrainingStage.idle :: (full_updates cfg lossOf).filterMap (fun u => u.stage)) := by
  rw [full_stage_eq]
  norm_num [List.chain'_cons, List.chain'_singleton, stageIdx]

theorem stage_chain_with_fault (cfg : TrainingConfig) (lossOf : ℕ → ℕ → ℚ)
    (fault : Option (ℕ × String)) :
    List.Chain' (fun a b => stageIdx a ≤ stageIdx b)
      (TrainingStage.idle ::
        (updates_with_fault cfg lossOf fault).filterMap (fun u => u.stage)) := by
  cases fault with
  | none => exact stage_chain_full cfg lossOf
  | some p =>
    obtain ⟨k, msg⟩ := p
    rw [fault_stage_values]
    have hpre : List.Chain' (fun a b => stageIdx a ≤ stageIdx b)
        (TrainingStage.idle ::
          ((full_updates cfg lossOf).take k).filterMap (fun u => u.stage)) := by
      refine List.Chain'.prefix (stage_chain_full cfg lossOf) ?_
      obtain ⟨t, ht⟩ := filterMap_take_front (fun u : ProgressUpdate => u.stage)
        (full_updates cfg lossOf) k
      exact ⟨t, by rw [List.cons_append, ht]⟩
    rw [show (TrainingStage.idle ::
        (((full_updates cfg lossOf).take k).filterMap (fun u => u.stage) ++
          [TrainingStage.failed])) =
        ((TrainingStage.idle ::
          ((full_updates cfg lossOf).take k).filterMap (fun u => u.stage)) ++
          [TrainingStage.failed]) from by simp]
    rw [List.chain'_append]
    refine ⟨hpre, List.chain'_singleton _, ?_⟩
    intro x hx y hy
    simp only [List.head?_cons, Option.mem_def, Option.some.injEq] at hy
    subst hy
    exact stageIdx_le_failed x

/-- C8: over every training run (any configuration, any fault point),
`progress_percent` stays within [0, 100] and is monotone non-decreasing
along the whole observable trace; stages only move forward in the order
Idle, DatasetCollection, DatasetProcessing, ModelTraining, Validation,
Deployment, Complete, with Failed reachable from anywhere as the terminal
worst element; an error raised during a stage leaves the job in `Failed`
with the error message appended to its `errors` list; and a fault-free run
ends `Complete` at 100 %. -/
theorem C8_training_trace_invariants (cfg : TrainingConfig) (lossOf : ℕ → ℕ → ℚ)
    (startTime : String) (fault : Option (ℕ × String)) :
    (∀ p ∈ train_egregore_trace cfg lossOf startTime fault,
        0 ≤ p.progress_percent ∧ p.progress_percent ≤ 100) ∧
    List.Chain' (fun a b => a.progress_percent ≤ b.progress_percent)
      (train_egregore_trace cfg lossOf startTime fault) ∧
    List.Chain' (fun a b => stageIdx a.stage ≤ stageIdx b.stage)
      (train_egregore_trace cfg lossOf startTime fault) ∧
    (∀ k msg, fault = some (k, msg) →
        (train_egregore_final cfg lossOf startTime fault).stage = .failed ∧
        msg ∈ (train_egregore_final cfg lossOf startTime fault).errors) ∧
    (fault = none →
        (train_egregore_final cfg lossOf startTime fault).stage = .complete ∧
        (train_egregore_final cfg lossOf startTime fault).progress_percent = 100) := by
  have hmapP : (train_egregore_trace cfg lossOf startTime fault).map
      (fun p => p.progress_percent) =
      List.scanl (fun cur u => (ProgressUpdate.progress u).getD cur) 0
        (updates_with_fault cfg lossOf fault) := by
    rw [train_egregore_trace]
    exact scanl_map_proj applyUpdate _ (fun p => p.progress_percent) (fun a b => rfl) _ _
  have hmapS : (train_egregore_trace cfg lossOf startTime fault).map
      (fun p => p.stage) =
      List.scanl (fun cur u => (ProgressUpdate.stage u).getD cur) .idle
        (updates_with_fault cfg lossOf fault) := by
    rw [train_egregore_trace]
    exact scanl_map_proj applyUpdate _ (fun p => p.stage) (fun a b => rfl) _ _
  refine ⟨?_, ?_, ?_, ?_, ?_⟩
  · intro p hp
    have hm : p.progress_percent ∈
        (train_egregore_trace cfg lossOf startTime fault).map
          (fun p => p.progress_percent) := List.mem_map_of_mem _ hp
    rw [hmapP] at hm
    have hmem := mem_scanl_getD (fun u : ProgressUpdate => u.progress) _ 0 _ hm
    exact progress_values_subset_with_fault cfg lossOf fault _ hmem
  · have h := chain'_scanl_getD (R := (· ≤ ·)) (fun x => le_refl x)
      (fun u : ProgressUpdate => u.progress) (updates_with_fault cfg lossOf fault) 0
      (progress_chain_with_fault cfg lossOf fault)
    rw [← hmapP] at h
    exact (List.chain'_map _).mp h
  · have h := chain'_scanl_getD (R := fun a b => stageIdx a ≤ stageIdx b)
      (fun x => le_refl _)
      (fun u : ProgressUpdate => u.stage) (updates_with_fault cfg lossOf fault) .idle
      (stage_chain_with_fault cfg lossOf fault)
    rw [← hmapS] at h
    exact (List.chain'_map (R := fun a b => stageIdx a ≤ stageIdx b)
      (fun p : TrainingProgress => p.stage)).mp h
  · intro k msg hf
    subst hf
    constructor
    · simp [train_egregore_final, updates_with_fault, List.foldl_append, applyUpdate,
        failure_update]
    · simp [train_egregore_final, updates_with_fault, List.foldl_append, applyUpdate,
        failure_update]
  · intro hf
    subst hf
    have hsplit : full_updates cfg lossOf =
        (collect_updates cfg ++ process_updates ++ train_updates cfg lossOf ++
          validate_updates cfg ++ deploy_updates) ++ [complete_update] := rfl
    constructor
    · simp [train_egregore_final, updates_with_fault, hsplit, List.foldl_append,
        applyUpdate, complete_update]
    · simp [train_egregore_final, updates_with_fault, hsplit, List.foldl_append,
        applyUpdate, complete_update]


/-- C8 witness: a concrete faulted run (the `rhys` configuration, an
exception before the fourth update) ends in `Failed` with the error
recorded. -/
theorem C8_witness :
    (train_egregore_final ⟨"Rhys", 8110, "architecture", "gpt2-medium", 30000, 3, 8,
      0.00005, 512, 20, 0.25⟩ (fun _ _ => 0) "t0" (some (3, "boom"))).stage = .failed ∧
    "boom" ∈ (train_egregore_final ⟨"Rhys", 8110, "architecture", "gpt2-medium", 30000, 3, 8,
      0.00005, 512, 20, 0.25⟩ (fun _ _ => 0) "t0" (some (3, "boom"))).errors :=
  (C8_training_trace_invariants ⟨"Rhys", 8110, "architecture", "gpt2-medium", 30000, 3, 8,
    0.00005, 512, 20, 0.25⟩ (fun _ _ => 0) "t0" (some (3, "boom"))).2.2.2.1 3 "boom" rfl
